import Mathlib

/-!
Verification of the NBA data-cleaning pipeline (`src/nba_analytics/data_cleaner.py`).

Shallow embedding.  A table is a column list together with a list of rows;
a row is an association list from column names to cell values.  A cell value
is a number (the source's float/int statistics, modelled as an exact rational),
a string, a boolean, or null (modelling NaN / pd.NA).  Following pandas
semantics, comparisons against null are false and arithmetic with null yields
null.
-/

namespace NBAClean

/-- A cell value of a DataFrame: a number, a string, a boolean, or null. -/
inductive Val where
  | num (q : ℚ)
  | str (s : String)
  | boolV (b : Bool)
  | null
deriving DecidableEq, Repr

namespace Val

/-- pandas elementwise `series > q`; comparisons against null (NaN) are false. -/
def gtQ : Val → ℚ → Bool
  | num a, q => decide (q < a)
  | _, _ => false

/-- pandas elementwise `series < q`; comparisons against null (NaN) are false. -/
def ltQ : Val → ℚ → Bool
  | num a, q => decide (a < q)
  | _, _ => false

/-- pandas elementwise `>` between two columns; any comparison with null is false. -/
def gtV : Val → Val → Bool
  | num a, num b => decide (b < a)
  | _, _ => false

/-- pandas elementwise `series == q`; null compares false. -/
def eqQ : Val → ℚ → Bool
  | num a, q => decide (a = q)
  | _, _ => false

/-- pandas `isna`. -/
def isNull : Val → Bool
  | null => true
  | _ => false

/-- The numeric content of a cell, if any (used by `Series.dropna` on a
numeric column). -/
def num? : Val → Option ℚ
  | num q => some q
  | _ => Option.none

/-- Elementwise addition; any operand that is not a number yields null (NaN). -/
def add : Val → Val → Val
  | num a, num b => num (a + b)
  | _, _ => null

/-- Elementwise subtraction; any operand that is not a number yields null (NaN). -/
def sub : Val → Val → Val
  | num a, num b => num (a - b)
  | _, _ => null

/-- Elementwise division; any operand that is not a number yields null (NaN). -/
def div : Val → Val → Val
  | num a, num b => num (a / b)
  | _, _ => null

/-- pandas `abs(series) > q`; null yields false. -/
def absGtQ : Val → ℚ → Bool
  | num a, q => decide (q < |a|)
  | _, _ => false

/-- pandas `Series.clip(lo, hi)`: numbers are clamped (lower bound first, then
upper, as pandas applies them), null passes through, and a null (NaN)
threshold imposes no bound since comparisons with NaN are false. -/
def clip (lo hi : Option ℚ) : Val → Val
  | num a =>
    let a1 := match lo with | some l => max a l | none => a
    num (match hi with | some h => min a1 h | none => a1)
  | v => v

end Val

/-- A row: an association list from column names to cell values.  Lookups see
the first binding of a name. -/
abbrev Row := List (String × Val)

namespace Row

/-- Value of a column in a row; null when the column is absent from the row. -/
def get : Row → String → Val
  | [], _ => .null
  | p :: ps, c => if p.1 = c then p.2 else get ps c

/-- Write one cell: replace the first binding of the column in place, or append
a new binding when the row does not carry the column yet. -/
def set : Row → String → Val → Row
  | [], c, v => [(c, v)]
  | p :: ps, c, v => if p.1 = c then (c, v) :: ps else p :: set ps c v

end Row

/-- A DataFrame: an ordered list of column names and an ordered list of rows. -/
structure Table where
  cols : List String
  rows : List Row
deriving DecidableEq, Repr

namespace Table

/-- Apply a row transformation to every row, keeping the column list. -/
def mapRows (t : Table) (f : Row → Row) : Table := ⟨t.cols, t.rows.map f⟩

/-- pandas `X[c] = <series computed per row>`: write column `c` in every row,
adding `c` at the end of the column list when it is new. -/
def setCol (t : Table) (c : String) (f : Row → Val) : Table :=
  ⟨if c ∈ t.cols then t.cols else t.cols ++ [c],
   t.rows.map (fun r => r.set c (f r))⟩

/-- The values of column `c`, one per row, in row order. -/
def colVals (t : Table) (c : String) : List Val := t.rows.map (fun r => r.get c)

end Table

/-- The outlier detection method (`outlier_method`): "iqr" or "zscore". -/
inductive OutlierMethod where
  | iqr
  | zscore
deriving DecidableEq, Repr

/-- The outlier handling action (`outlier_action`): "flag", "cap" or "remove". -/
inductive OutlierAction where
  | flag
  | cap
  | remove
deriving DecidableEq, Repr

/-- Configuration for the cleaning pipeline (`CleaningConfig`), with the
source's defaults.  The `__post_init__` enum validation becomes a typing
constraint of `OutlierMethod` / `OutlierAction`. -/
structure CleaningConfig where
  max_minutes_per_game : ℚ := 60
  max_reasonable_points : ℚ := 100
  max_reasonable_rebounds : ℚ := 30
  max_reasonable_assists : ℚ := 25
  fill_counting_stats_with_zero : Bool := true
  drop_threshold_missing_pct : ℚ := 95
  outlier_method : OutlierMethod := .iqr
  outlier_threshold : ℚ := 3
  outlier_action : OutlierAction := .flag
  standardize_positions : Bool := true
  create_full_names : Bool := true
  strict_validation : Bool := true
  auto_fix_inconsistencies : Bool := true
  default_first_game_rest : ℚ := 7
deriving DecidableEq, Repr

/-- The default configuration (`CleaningConfig()`). -/
def defaultConfig : CleaningConfig := {}

/-!
MinutesConverter (`MinutesConverter.convert_to_decimal`, lines 140-175).
The converter receives a raw Python value: missing (None / NaN), a number,
or a string.  Strings are modelled as character lists so that the parsing
can be reasoned about by structural induction.
-/

/-- A raw input to `convert_to_decimal`: absent (None/NaN), a number, or a
string. -/
inductive PyVal where
  | none
  | num (q : ℚ)
  | str (s : List Char)
deriving DecidableEq, Repr

/-- The whitespace characters removed by Python's `str.strip` and accepted
around a numeral by `float` (ASCII core). -/
def isPySpace (c : Char) : Bool :=
  c = ' ' || c = '\t' || c = '\n' || c = '\r' || c = '\x0b' || c = '\x0c'

/-- Python `str.strip`: drop whitespace from both ends. -/
def pyStrip (s : List Char) : List Char :=
  ((s.dropWhile isPySpace).reverse.dropWhile isPySpace).reverse

/-- Python `str.split(sep)` for a one-character separator: always returns at
least one chunk, and one more chunk per separator occurrence. -/
def splitOnChar (sep : Char) : List Char → List (List Char)
  | [] => [[]]
  | c :: rest =>
    if c = sep then [] :: splitOnChar sep rest
    else
      match splitOnChar sep rest with
      | [] => [[c]]
      | g :: gs => (c :: g) :: gs

/-- Numeric value of a digit string, most significant digit first. -/
def digitsVal (l : List Char) : ℕ :=
  l.foldl (fun a c => a * 10 + (c.toNat - 48)) 0

/-- A Python float value: a finite rational, NaN (as produced by
`float('nan')`), or a signed infinity (`float('inf')`, `float('-inf')`).
NaN satisfies no order comparison, so it is in particular not a
non-negative value. -/
inductive PyFloat where
  | num (q : ℚ)
  | nan
  | inf (neg : Bool)
deriving DecidableEq, Repr

/-- Unary minus on floats. -/
def PyFloat.negF : PyFloat → PyFloat
  | num q => num (-q)
  | nan => nan
  | inf b => inf (!b)

/-- IEEE addition: NaN propagates, opposite infinities give NaN. -/
def PyFloat.addF : PyFloat → PyFloat → PyFloat
  | num a, num b => num (a + b)
  | nan, _ => nan
  | _, nan => nan
  | inf a, inf b => if a = b then inf a else nan
  | inf a, num _ => inf a
  | num _, inf b => inf b

/-- IEEE division by the constant 60. -/
def PyFloat.div60 : PyFloat → PyFloat
  | num q => num (q / 60)
  | nan => nan
  | inf b => inf b

/-- Case-insensitive match of a character against a lowercase letter. -/
def charIC (c lo : Char) : Bool := c = lo || c.toNat = lo.toNat - 32

/-- Case-insensitive match of a string against a lowercase word. -/
def wordIC : List Char → List Char → Bool
  | [], [] => true
  | c :: cs, w :: ws => charIC c w && wordIC cs ws
  | _, _ => false

/-- Tail of a digit group: digits with single underscores between digits. -/
def usTail : List Char → Bool
  | [] => true
  | c :: rest =>
    if c = '_' then
      match rest with
      | [] => false
      | d :: rest2 => d.isDigit && usTail rest2
    else c.isDigit && usTail rest

/-- A valid digit group of a Python numeric literal: `digit (["_"] digit)*`
(ASCII digits, single underscores allowed between digits). -/
def usDigitsValid : List Char → Bool
  | [] => false
  | c :: rest => c.isDigit && usTail rest

/-- Numeric value of a digit group, underscores ignored. -/
def usVal (l : List Char) : ℕ := digitsVal (l.filter (fun c => c ≠ '_'))

/-- Number of digits of a digit group, underscores ignored. -/
def usLen (l : List Char) : ℕ := (l.filter (fun c => c ≠ '_')).length

/-- Mantissa of a Python float literal: digit groups around at most one
decimal point, with at least one digit overall ("12", "12.", ".5",
"1.5", "1_0.2_5"). -/
def parseMantissa (l : List Char) : Option ℚ :=
  match splitOnChar '.' l with
  | [ip] => if usDigitsValid ip = true then some ((usVal ip : ℚ)) else Option.none
  | [ip, fp] =>
    if (ip = [] ∨ usDigitsValid ip = true) ∧ (fp = [] ∨ usDigitsValid fp = true) ∧
        (ip ≠ [] ∨ fp ≠ []) then
      some ((usVal ip : ℚ) + (usVal fp : ℚ) / 10 ^ usLen fp)
    else Option.none
  | _ => Option.none

/-- Split at the first exponent marker e or E. -/
def splitExp : List Char → List Char × Option (List Char)
  | [] => ([], Option.none)
  | c :: rest =>
    if c = 'e' ∨ c = 'E' then ([], some rest)
    else (c :: (splitExp rest).1, (splitExp rest).2)

/-- Exponent part of a float literal: an optional sign then a digit group. -/
def parseExp : List Char → Option ℤ
  | '-' :: rest =>
    if usDigitsValid rest = true then some (-(usVal rest : ℤ)) else Option.none
  | '+' :: rest =>
    if usDigitsValid rest = true then some ((usVal rest : ℤ)) else Option.none
  | l => if usDigitsValid l = true then some ((usVal l : ℤ)) else Option.none

/-- The signless body accepted by Python `float`: the words nan, inf and
infinity (case-insensitive), or a mantissa with an optional e/E exponent. -/
def parseBody (l : List Char) : Option PyFloat :=
  if wordIC l ("nan".data) = true then some PyFloat.nan
  else if wordIC l ("inf".data) = true ∨ wordIC l ("infinity".data) = true then
    some (PyFloat.inf false)
  else
    match (splitExp l).2 with
    | Option.none => (parseMantissa l).map PyFloat.num
    | Option.some ex =>
      match parseMantissa (splitExp l).1, parseExp ex with
      | Option.some q, Option.some z => some (PyFloat.num (q * 10 ^ z))
      | _, _ => Option.none

/-- Model of Python's builtin `float(str)`: strip surrounding whitespace, read
an optional sign, then a body — a finite literal, nan, or inf/infinity;
`Option.none` models the `ValueError` that `convert_to_decimal` catches. -/
def pyFloat? (s : List Char) : Option PyFloat :=
  if pyStrip s ≠ [] ∧ (pyStrip s).headD ' ' = '-' then
    (parseBody (pyStrip s).tail).map PyFloat.negF
  else if pyStrip s ≠ [] ∧ (pyStrip s).headD ' ' = '+' then
    parseBody (pyStrip s).tail
  else parseBody (pyStrip s)

namespace MinutesConverter

/-- `MinutesConverter.convert_to_decimal` (lines 140-175): convert minutes in
"M:S" or numeric form to decimal minutes, returning 0.0 for missing or
unparsable values.  A numeric input is round-tripped by the source through
`str` and `float`, which restores the number and never produces a colon;
this round trip is modelled as the identity.  The result is a Python
float: parsable non-finite strings ("nan", "inf") flow through the float
arithmetic, so the result can be NaN or an infinity. -/
def convert_to_decimal : PyVal → PyFloat
  | .none => .num 0
  | .num q => .num q
  | .str s =>
    if s = [] then .num 0
    else
      if ':' ∈ pyStrip s then
        match pyFloat? ((splitOnChar ':' (pyStrip s)).getD 0 []) with
        | Option.none => .num 0
        | Option.some m =>
          match (if (splitOnChar ':' (pyStrip s)).length > 1 then
                   pyFloat? ((splitOnChar ':' (pyStrip s)).getD 1 [])
                 else some (PyFloat.num 0)) with
          | Option.none => .num 0
          | Option.some sec => m.addF sec.div60
      else (pyFloat? (pyStrip s)).getD (.num 0)

end MinutesConverter

/-!
BaseNBATransformer (lines 75-134): the shared fit/transform contract.
-/

/-- Errors raised by the transformers, modelling the TypeError / ValueError
exceptions of the source. -/
inductive CleanError where
  | notFitted
  | notDataFrame
  | missingColumns (cols : List String)
deriving DecidableEq, Repr

/-- The sklearn-style state carried by every transformer: whether `fit` ran,
the fit-time schema, and the optional `required_columns_` attribute that
`_validate_input` tests for via `hasattr`.  No transformer of the module
assigns `required_columns_`; it is the extension point the base class
checks. -/
structure StageState where
  is_fitted_ : Bool := false
  feature_names_in_ : Option (List String) := Option.none
  n_features_in_ : Option ℕ := Option.none
  required_columns_ : Option (List String) := Option.none
deriving DecidableEq, Repr

/-- `BaseNBATransformer._validate_input` (lines 94-105): the input is always a
DataFrame in this typed embedding; after fit, when `required_columns_`
exists, missing required columns raise under strict validation (the set
difference is modelled as a filter in required-column order).  The final
`X.copy()` is the identity in value semantics. -/
def validate_input (cfg : CleaningConfig) (st : StageState) (X : Table) :
    Except CleanError Table :=
  if st.is_fitted_ then
    match st.required_columns_ with
    | Option.some rc =>
      let missing := rc.filter (fun c => c ∉ X.cols)
      if missing ≠ [] ∧ cfg.strict_validation then .error (.missingColumns missing)
      else .ok X
    | Option.none => .ok X
  else .ok X

/-- `BaseNBATransformer._store_input_info` (lines 107-111). -/
def store_input_info (st : StageState) (X : Table) : StageState :=
  { st with feature_names_in_ := some X.cols,
            n_features_in_ := some X.cols.length,
            is_fitted_ := true }

/-- `BaseNBATransformer.fit` (lines 118-122). -/
def baseFit (cfg : CleaningConfig) (st : StageState) (X : Table) :
    Except CleanError StageState :=
  (validate_input cfg st X).map (fun X' => store_input_info st X')

/-- `BaseNBATransformer.transform` (lines 124-130), generic over the subclass
hook `_transform_impl`. -/
def baseTransform (cfg : CleaningConfig) (st : StageState)
    (impl : Table → Table) (X : Table) : Except CleanError Table :=
  if st.is_fitted_ = false then .error .notFitted
  else (validate_input cfg st X).map impl

/-!
MissingValueHandler (lines 242-306).
-/

/-- The percentage triples (pct, attempts, made) of lines 266-270. -/
def percentage_mappings : List (String × String × String) :=
  [("fg_pct", "fga", "fgm"), ("fg3_pct", "fg3a", "fg3m"), ("ft_pct", "fta", "ftm")]

/-- The counting-stat columns of lines 289-293. -/
def counting_stats : List String :=
  ["fgm", "fga", "fg3m", "fg3a", "ftm", "fta",
   "oreb", "dreb", "reb", "ast", "stl", "blk",
   "turnover", "pf", "pts"]

namespace MissingValueHandler

/-- One percentage triple, lines 272-285: set the percentage to 0 where
attempts are 0 and the percentage is null; then, when the made column
exists and some percentage is missing with positive attempts, recompute it
as made/attempts there. -/
def pctStep (t : Table) (m : String × String × String) : Table :=
  let (pct, att, made) := m
  if pct ∈ t.cols ∧ att ∈ t.cols then
    let t1 := t.mapRows (fun r =>
      if (r.get att).eqQ 0 && (r.get pct).isNull then r.set pct (.num 0) else r)
    if made ∈ t1.cols then
      if t1.rows.any (fun r => (r.get pct).isNull && (r.get att).gtQ 0) then
        t1.mapRows (fun r =>
          if (r.get pct).isNull && (r.get att).gtQ 0 then
            r.set pct ((r.get made).div (r.get att))
          else r)
      else t1
    else t1
  else t

/-- The fill of lines 295-300 for one counting column: when the column exists
and has missing values, `X[col] = X[col].fillna(0)`. -/
def fillStep (t : Table) (col : String) : Table :=
  if col ∈ t.cols then
    if t.rows.any (fun r => (r.get col).isNull) then
      t.setCol col (fun r => if (r.get col).isNull then .num 0 else r.get col)
    else t
  else t

/-- `MissingValueHandler._transform_impl` (lines 249-306); the missing-value
report of lines 253-262 only logs. -/
def transform_impl (cfg : CleaningConfig) (t : Table) : Table :=
  let t1 := percentage_mappings.foldl pctStep t
  let t2 :=
    if cfg.fill_counting_stats_with_zero then counting_stats.foldl fillStep t1 else t1
  if "minutes_played" ∈ t2.cols then
    t2.setCol "minutes_played"
      (fun r => if (r.get "minutes_played").isNull then .num 0 else r.get "minutes_played")
  else t2

end MissingValueHandler

/-!
DataValidator (lines 309-376).
-/

/-- The made/attempted column pairs of line 330. -/
def shot_checks : List (String × String) := [("fgm", "fga"), ("fg3m", "fg3a"), ("ftm", "fta")]

/-- The percentage columns of line 349. -/
def pct_columns : List String := ["fg_pct", "fg3_pct", "ft_pct"]

namespace DataValidator

/-- The minutes check of lines 322-327: clamp minutes above the maximum down
to it when a violating record exists and auto-fix is on. -/
def minutesStep (cfg : CleaningConfig) (t : Table) : Table :=
  if "minutes_played" ∈ t.cols then
    if t.rows.any (fun r => (r.get "minutes_played").gtQ cfg.max_minutes_per_game) ∧
        cfg.auto_fix_inconsistencies then
      t.mapRows (fun r =>
        if (r.get "minutes_played").gtQ cfg.max_minutes_per_game then
          r.set "minutes_played" (.num cfg.max_minutes_per_game)
        else r)
    else t
  else t

/-- One made/attempted check of lines 330-337: where made exceeds attempted,
made is set to the attempted value when a violating record exists and
auto-fix is on. -/
def shotStep (cfg : CleaningConfig) (t : Table) (p : String × String) : Table :=
  if p.1 ∈ t.cols ∧ p.2 ∈ t.cols then
    if t.rows.any (fun r => (r.get p.1).gtV (r.get p.2)) ∧ cfg.auto_fix_inconsistencies then
      t.mapRows (fun r =>
        if (r.get p.1).gtV (r.get p.2) then r.set p.1 (r.get p.2) else r)
    else t
  else t

/-- The rebound consistency check of lines 339-346: when some record's total
rebounds differ from oreb + dreb by more than 0.1 and auto-fix is on, the
whole `reb` column is recomputed as `oreb + dreb`. -/
def rebStep (cfg : CleaningConfig) (t : Table) : Table :=
  if "reb" ∈ t.cols ∧ "oreb" ∈ t.cols ∧ "dreb" ∈ t.cols then
    if t.rows.any (fun r =>
          ((r.get "reb").sub ((r.get "oreb").add (r.get "dreb"))).absGtQ 0.1) ∧
        cfg.auto_fix_inconsistencies then
      t.setCol "reb" (fun r => (r.get "oreb").add (r.get "dreb"))
    else t
  else t

/-- One percentage-range check of lines 348-356: clip the column into [0,1]
when an out-of-range record exists and auto-fix is on. -/
def pctClipStep (cfg : CleaningConfig) (t : Table) (col : String) : Table :=
  if col ∈ t.cols then
    if t.rows.any (fun r => (r.get col).ltQ 0 || (r.get col).gtQ 1) ∧
        cfg.auto_fix_inconsistencies then
      t.setCol col (fun r => (r.get col).clip (some 0) (some 1))
    else t
  else t

/-- `DataValidator._transform_impl` (lines 316-376).  The extreme-value sanity
checks of lines 358-369 and the issue list only log and do not touch the
table. -/
def transform_impl (cfg : CleaningConfig) (t : Table) : Table :=
  let t1 := minutesStep cfg t
  let t2 := shot_checks.foldl (shotStep cfg) t1
  let t3 := rebStep cfg t2
  pct_columns.foldl (pctClipStep cfg) t3

end DataValidator

/-!
OutlierDetector (lines 379-448).
-/

/-- The statistical columns examined by `OutlierDetector.fit` (line 413). -/
def outlier_columns : List String := ["pts", "reb", "ast", "minutes_played", "fga", "fg3a"]

namespace OutlierDetector

/-- `outlier_bounds_`: per-column bounds in dict insertion order.
`Option.none` models a NaN bound (obtained by fitting an empty series),
which bounds nothing. -/
abbrev Bounds := List (String × Option ℚ × Option ℚ)

/-- Python dict assignment `d[k] = v`: overwrite the binding in place, or
append a new one, preserving insertion order. -/
def dictSet : Bounds → String → Option ℚ × Option ℚ → Bounds
  | [], k, v => [(k, v)]
  | p :: ps, k, v => if p.1 = k then (k, v) :: ps else p :: dictSet ps k v

/-- Insert into an ascending sorted list of rationals. -/
def insertSorted (x : ℚ) : List ℚ → List ℚ
  | [] => [x]
  | y :: ys => if x ≤ y then x :: y :: ys else y :: insertSorted x ys

/-- Sort a list of rationals ascending. -/
def sortQ (xs : List ℚ) : List ℚ := xs.foldr insertSorted []

/-- pandas `Series.quantile(p)` with the default linear interpolation: the
value at position p·(n−1) of the ascending sorted list, interpolated
between the two neighbouring order statistics; NaN on an empty series. -/
def quantile (xs : List ℚ) (p : ℚ) : Option ℚ :=
  match sortQ xs with
  | [] => Option.none
  | s =>
    let h : ℚ := p * ((s.length : ℚ) - 1)
    let i : ℕ := (⌊h⌋).toNat
    let lo := s.getD i 0
    let hi := s.getD (i + 1) lo
    some (lo + (h - (i : ℚ)) * (hi - lo))

/-- Sample mean of a list of rationals. -/
def meanQ (xs : List ℚ) : ℚ := xs.sum / xs.length

/-- Integer-square-root stand-in for the floating-point square root inside
`series.std()`; no claim depends on the z-score branch's numeric value. -/
def sqrtQ (q : ℚ) : ℚ := (Nat.sqrt q.num.toNat : ℚ) / (Nat.sqrt q.den : ℚ)

/-- pandas `Series.std()` (sample standard deviation, ddof = 1); NaN on fewer
than two values. -/
def stdQ (xs : List ℚ) : Option ℚ :=
  if xs.length < 2 then Option.none
  else some (sqrtQ ((xs.map (fun x => (x - meanQ xs) ^ 2)).sum / ((xs.length : ℚ) - 1)))

/-- `OutlierDetector._calculate_outlier_bounds` (lines 390-406). -/
def calculate_outlier_bounds (cfg : CleaningConfig) (xs : List ℚ) : Option ℚ × Option ℚ :=
  match cfg.outlier_method with
  | .iqr =>
    match quantile xs (1/4), quantile xs (3/4) with
    | some q1, some q3 =>
      (some (q1 - cfg.outlier_threshold * (q3 - q1)),
       some (q3 + cfg.outlier_threshold * (q3 - q1)))
    | _, _ => (Option.none, Option.none)
  | .zscore =>
    match stdQ xs with
    | some sd =>
      (some (meanQ xs - cfg.outlier_threshold * sd),
       some (meanQ xs + cfg.outlier_threshold * sd))
    | Option.none => (Option.none, Option.none)

/-- `OutlierDetector.fit` (lines 408-420): compute bounds for every present
outlier column from its non-null values (non-numeric cells do not occur in
these statistic columns).  Bounds of columns absent from this fit survive
from any earlier fit: the dict is updated, never cleared. -/
def fit (cfg : CleaningConfig) (b : Bounds) (A : Table) : Bounds :=
  outlier_columns.foldl
    (fun d col =>
      if col ∈ A.cols then
        dictSet d col (calculate_outlier_bounds cfg ((A.colVals col).filterMap Val.num?))
      else d) b

/-- The outlier mask of line 429: strictly below the lower or strictly above
the upper bound; null cells and NaN bounds never flag. -/
def isOutlier (v : Val) (lb ub : Option ℚ) : Bool :=
  (match lb with | some l => v.ltQ l | Option.none => false) ||
  (match ub with | some u => v.gtQ u | Option.none => false)

/-- One iteration of the loop of lines 427-441 for one fitted column. -/
def outlierStep (cfg : CleaningConfig) (t : Table) (e : String × Option ℚ × Option ℚ) :
    Table :=
  if e.1 ∈ t.cols then
    match cfg.outlier_action with
    | .flag =>
      t.setCol (e.1 ++ "_outlier_flag") (fun r => .boolV (isOutlier (r.get e.1) e.2.1 e.2.2))
    | .cap => t.setCol e.1 (fun r => (r.get e.1).clip e.2.1 e.2.2)
    | .remove => ⟨t.cols, t.rows.filter (fun r => !(isOutlier (r.get e.1) e.2.1 e.2.2))⟩
  else t

/-- `OutlierDetector._transform_impl` (lines 422-448): apply the configured
action for every fitted column, in bounds insertion order. -/
def transform_impl (cfg : CleaningConfig) (b : Bounds) (t : Table) : Table :=
  b.foldl (outlierStep cfg) t

/-- The `transform` call viewed together with its state: `_transform_impl`
reads `outlier_bounds_` and never assigns it, so the state component of the
result is the incoming state itself. -/
def transformS (cfg : CleaningConfig) (b : Bounds) (t : Table) : Bounds × Table :=
  (b, transform_impl cfg b t)

end OutlierDetector

/-!
TextDataCleaner (lines 451-502).
-/

namespace TextDataCleaner

/-- The position lookup table of lines 462-470. -/
def position_mapping : String → Option String
  | "G" => some "Guard"
  | "F" => some "Forward"
  | "C" => some "Center"
  | "G-F" => some "Guard-Forward"
  | "F-G" => some "Guard-Forward"
  | "F-C" => some "Forward-Center"
  | "C-F" => some "Forward-Center"
  | _ => Option.none

/-- The text columns cleaned at lines 476-484. -/
def text_columns : List String :=
  ["player_first_name", "player_last_name", "player_position",
   "team_abbreviation", "team_full_name"]

/-- Python `str()` of a cell as `astype(str)` uses it: null renders as "nan".
The text columns hold strings; the exact float formatting of a stray
numeric cell is not modelled beyond being some numeral string. -/
def pyStr : Val → String
  | .str s => s
  | .null => "nan"
  | .boolV b => if b then "True" else "False"
  | .num q => toString q

/-- Lines 480-484 for one cell: `astype(str).str.strip()` followed by
replacing the sentinels "nan", "None" and "" with missing. -/
def cleanTextVal (v : Val) : Val :=
  let s := String.mk (pyStrip (pyStr v).data)
  if s = "nan" ∨ s = "None" ∨ s = "" then .null else .str s

/-- `map(position_mapping).fillna(original)` of lines 488-492 for one cell: a
value found in the lookup table is replaced by its image, every other value
(missing included) passes through unchanged. -/
def standardizeVal : Val → Val
  | .str s =>
    match position_mapping s with
    | some m => .str m
    | Option.none => .str s
  | v => v

/-- The position-standardization block of lines 487-492: derive the
`player_position_standardized` column from the position column. -/
def standardizeStep (cfg : CleaningConfig) (t : Table) : Table :=
  if "player_position" ∈ t.cols ∧ cfg.standardize_positions then
    t.setCol "player_position_standardized"
      (fun r => standardizeVal (r.get "player_position"))
  else t

/-- The full-name block of lines 495-500. -/
def fullNameStep (cfg : CleaningConfig) (t : Table) : Table :=
  if cfg.create_full_names ∧ "player_first_name" ∈ t.cols ∧ "player_last_name" ∈ t.cols then
    t.setCol "player_full_name"
      (fun r =>
        .str (pyStr (r.get "player_first_name") ++ " " ++ pyStr (r.get "player_last_name")))
  else t

/-- `TextDataCleaner._transform_impl` (lines 472-502). -/
def transform_impl (cfg : CleaningConfig) (t : Table) : Table :=
  let t1 := text_columns.foldl
    (fun s col =>
      if col ∈ s.cols then s.setCol col (fun r => cleanTextVal (r.get col)) else s) t
  fullNameStep cfg (standardizeStep cfg t1)

end TextDataCleaner

/-!
NBADataCleaner (lines 623-744): the pipeline.  The error-handling claims
quantify over arbitrary stage behavior, so the fitted stage sequence is
modelled as a list of fallible table transformations.
-/

/-- One iteration of the loop of lines 727-734: a stage's transform is tried;
on an exception the stage is skipped and the incoming table is kept. -/
def runStage (f : Table → Except CleanError Table) (x : Table) : Table :=
  match f x with
  | .ok y => y
  | .error _ => x

/-- The stage loop of `NBADataCleaner.transform` (lines 727-734). -/
def pipelineRun (stages : List (Table → Except CleanError Table)) (x : Table) : Table :=
  stages.foldl (fun acc f => runStage f acc) x

/-- `NBADataCleaner.transform` (lines 706-744): raise when unfitted, otherwise
run every stage in order with per-stage error recovery; the `X.copy()` and
the cleaning report do not affect the returned table. -/
def cleanerTransform (is_fitted : Bool) (stages : List (Table → Except CleanError Table))
    (X : Table) : Except CleanError Table :=
  if is_fitted = false then .error .notFitted
  else .ok (pipelineRun stages X)

/-!
Verification helper (not a source model): the frame relation used to carry
row invariants through steps that write other columns.
-/

/-- `KeepCols S t t'`: the rows of t' arise from the rows of t by a per-row
transformation that keeps the value of every column of S in every row. -/
def KeepCols (S : List String) (t t' : Table) : Prop :=
  ∃ F : Row → Row, t'.rows = t.rows.map F ∧ ∀ r, ∀ c ∈ S, (F r).get c = r.get c

/-!
Lemmas about the data model.
-/

namespace Row

@[simp] theorem get_nil (c : String) : get [] c = .null := rfl

@[simp] theorem get_set_self (r : Row) (c : String) (v : Val) :
    (r.set c v).get c = v := by
  induction r with
  | nil => simp [get, set]
  | cons p ps ih =>
    by_cases h : p.1 = c
    · simp [get, set, h]
    · simp [get, set, h, ih]

theorem get_set_ne (r : Row) {c c' : String} (v : Val) (h : c' ≠ c) :
    (r.set c v).get c' = r.get c' := by
  have hcc : ¬ (c = c') := fun hc => h hc.symm
  induction r with
  | nil => simp [get, set, hcc]
  | cons p ps ih =>
    by_cases hp : p.1 = c
    · simp [get, set, hp, hcc, h]
    · by_cases hp' : p.1 = c'
      · simp [get, set, hp, hp', h]
      · simp [get, set, hp, hp', ih]

end Row

namespace Table

@[simp] theorem mapRows_cols (t : Table) (f : Row → Row) : (t.mapRows f).cols = t.cols := rfl

@[simp] theorem mapRows_rows (t : Table) (f : Row → Row) : (t.mapRows f).rows = t.rows.map f :=
  rfl

theorem setCol_cols_of_mem (t : Table) (c : String) (f : Row → Val) (h : c ∈ t.cols) :
    (t.setCol c f).cols = t.cols := by simp [setCol, h]

@[simp] theorem setCol_rows (t : Table) (c : String) (f : Row → Val) :
    (t.setCol c f).rows = t.rows.map (fun r => r.set c (f r)) := rfl

theorem mem_setCol_cols (t : Table) (c c' : String) (f : Row → Val) :
    c' ∈ (t.setCol c f).cols ↔ (c' ∈ t.cols ∨ c' = c) := by
  by_cases h : c ∈ t.cols
  · simp only [setCol, if_pos h]
    constructor
    · exact fun hm => Or.inl hm
    · rintro (hm | rfl)
      · exact hm
      · exact h
  · simp [setCol, if_neg h]

theorem colVals_mapRows (t : Table) (f : Row → Row) (c : String) :
    (t.mapRows f).colVals c = t.rows.map (fun r => (f r).get c) := by
  simp [colVals]

theorem colVals_setCol_self (t : Table) (c : String) (f : Row → Val) :
    (t.setCol c f).colVals c = t.rows.map f := by
  simp [colVals, Row.get_set_self]

theorem colVals_setCol_ne (t : Table) {c c' : String} (f : Row → Val) (h : c' ≠ c) :
    (t.setCol c f).colVals c' = t.colVals c' := by
  simp [colVals, Row.get_set_ne _ _ h]

end Table

/-- Fold preservation: an invariant kept by every step is kept by the fold. -/
theorem foldl_preserve {α β : Type} (P : α → Prop) (step : α → β → α) (l : List β) (a : α)
    (h0 : P a) (h : ∀ x b, b ∈ l → P x → P (step x b)) : P (l.foldl step a) := by
  induction l generalizing a with
  | nil => exact h0
  | cons b bs ih =>
    exact ih (step a b) (h a b (by simp) h0) (fun x b' hb' hx => h x b' (by simp [hb']) hx)

/-!
Claim C2.
-/

/-- C2: for every fitted stage, when strict validation is enabled and columns
required after fit are absent from the table passed to transform, the
transform call fails with the missing-columns error rather than silently
skipping those columns. -/
theorem C2_strict_validation_missing_columns
    (cfg : CleaningConfig) (st : StageState) (impl : Table → Table) (X : Table)
    (rc : List String)
    (hstrict : cfg.strict_validation = true)
    (hfit : st.is_fitted_ = true)
    (hrc : st.required_columns_ = Option.some rc)
    (hmiss : rc.filter (fun c => c ∉ X.cols) ≠ []) :
    baseTransform cfg st impl X =
      Except.error (CleanError.missingColumns (rc.filter (fun c => c ∉ X.cols))) := by
  unfold baseTransform
  rw [hfit]
  simp only [Bool.true_eq_false, if_false]
  unfold validate_input
  rw [hfit, hrc]
  simp only [if_true]
  rw [if_pos ⟨hmiss, hstrict⟩]
  rfl

/-- Witness for C2 at a concrete stage state and table: the stage requires
pts and ast after fit, but the incoming table only has pts. -/
theorem C2_strict_validation_missing_columns_witness :
    defaultConfig.strict_validation = true ∧
    baseTransform defaultConfig
        { is_fitted_ := true, required_columns_ := Option.some ["pts", "ast"] }
        (fun t => t) ⟨["pts"], []⟩ =
      Except.error (CleanError.missingColumns ["ast"]) := by
  refine ⟨rfl, ?_⟩
  have h := C2_strict_validation_missing_columns defaultConfig
    { is_fitted_ := true, required_columns_ := Option.some ["pts", "ast"] }
    (fun t => t) ⟨["pts"], []⟩ ["pts", "ast"] rfl rfl rfl (by decide)
  have hf : (["pts", "ast"].filter (fun c => c ∉ (⟨["pts"], []⟩ : Table).cols)) = ["ast"] := by
    decide
  rw [hf] at h
  exact h

/-!
Claim C3.
-/

/-- The stage loop distributes over list append. -/
theorem pipelineRun_append (l₁ l₂ : List (Table → Except CleanError Table)) (X : Table) :
    pipelineRun (l₁ ++ l₂) X = pipelineRun l₂ (pipelineRun l₁ X) := by
  unfold pipelineRun
  rw [List.foldl_append]

/-- Unfolding one stage of the loop. -/
theorem pipelineRun_cons (f : Table → Except CleanError Table)
    (stages : List (Table → Except CleanError Table)) (X : Table) :
    pipelineRun (f :: stages) X = pipelineRun stages (runStage f X) := rfl

/-- A raising stage leaves its input table untouched. -/
theorem runStage_error {f : Table → Except CleanError Table} {X : Table} {e : CleanError}
    (h : f X = Except.error e) : runStage f X = X := by
  unfold runStage
  rw [h]

/-- C3: during a fitted pipeline transform, a stage whose transform raises an
exception is skipped: the exception is caught, the table that entered the
failing stage is forwarded unchanged to the remaining stages, those stages
still run, and the call completes with a cleaned table. -/
theorem C3_failing_stage_skipped
    (pre post : List (Table → Except CleanError Table))
    (f : Table → Except CleanError Table) (X : Table) (e : CleanError)
    (herr : f (pipelineRun pre X) = Except.error e) :
    pipelineRun (pre ++ f :: post) X = pipelineRun post (pipelineRun pre X) ∧
    cleanerTransform true (pre ++ f :: post) X =
      Except.ok (pipelineRun post (pipelineRun pre X)) := by
  have h1 : pipelineRun (pre ++ f :: post) X = pipelineRun post (pipelineRun pre X) := by
    rw [pipelineRun_append, pipelineRun_cons, runStage_error herr]
  exact ⟨h1, by simp [cleanerTransform, h1]⟩

/-!
Claim C7.
-/

namespace MissingValueHandler

/-- The fillna-with-zero column write leaves no null in its column. -/
theorem fillna_setCol_not_null (t : Table) (c : String) :
    ∀ r' ∈ (t.setCol c (fun r => if (r.get c).isNull then Val.num 0 else r.get c)).rows,
      (r'.get c).isNull = false := by
  intro r' hr'
  simp only [Table.setCol_rows, List.mem_map] at hr'
  obtain ⟨r, _, rfl⟩ := hr'
  rw [Row.get_set_self]
  by_cases h : (r.get c).isNull = true
  · rw [if_pos h]
    rfl
  · rw [if_neg h]
    simp only [Bool.not_eq_true] at h
    exact h

/-- The fillna-with-zero column write preserves null-freeness of any column. -/
theorem fillna_setCol_preserves (t : Table) (c col : String)
    (h : ∀ r ∈ t.rows, (r.get col).isNull = false) :
    ∀ r' ∈ (t.setCol c (fun r => if (r.get c).isNull then Val.num 0 else r.get c)).rows,
      (r'.get col).isNull = false := by
  by_cases hc : col = c
  · subst hc
    exact fillna_setCol_not_null t col
  · intro r' hr'
    simp only [Table.setCol_rows, List.mem_map] at hr'
    obtain ⟨r, hr, rfl⟩ := hr'
    rw [Row.get_set_ne _ _ hc]
    exact h r hr

/-- A fill step never reintroduces a null into any null-free column. -/
theorem fillStep_preserves (t : Table) (c col : String)
    (h : ∀ r ∈ t.rows, (r.get col).isNull = false) :
    ∀ r' ∈ (fillStep t c).rows, (r'.get col).isNull = false := by
  unfold fillStep
  split
  · split
    · exact fillna_setCol_preserves t c col h
    · exact h
  · exact h

/-- After the fill step of a present column, that column has no nulls. -/
theorem fillStep_not_null (t : Table) (col : String) (hmem : col ∈ t.cols) :
    ∀ r' ∈ (fillStep t col).rows, (r'.get col).isNull = false := by
  unfold fillStep
  rw [if_pos hmem]
  split
  · exact fillna_setCol_not_null t col
  · next hany =>
      intro r' hr'
      simp only [Bool.not_eq_true, List.any_eq_false] at hany
      have := hany r' hr'
      simpa using this

/-- A fill step does not change the column list. -/
theorem fillStep_cols (t : Table) (c : String) : (fillStep t c).cols = t.cols := by
  unfold fillStep
  split
  · next hmem =>
      split
      · exact Table.setCol_cols_of_mem t c _ hmem
      · rfl
  · rfl

/-- Folding the fill steps over a column list that contains a present column
leaves that column null-free. -/
theorem foldl_fillStep_not_null (l : List String) (col : String) :
    ∀ t : Table, col ∈ l → col ∈ t.cols →
      ∀ r' ∈ (l.foldl fillStep t).rows, (r'.get col).isNull = false := by
  induction l with
  | nil => intro t hcol; cases hcol
  | cons c cs ih =>
    intro t hcol hmem
    rw [List.foldl_cons]
    rcases List.mem_cons.1 hcol with hc | hc
    · subst hc
      exact foldl_preserve (fun t' => ∀ r' ∈ t'.rows, (r'.get col).isNull = false)
        fillStep cs (fillStep t col) (fillStep_not_null t col hmem)
        (fun x b _ hx => fillStep_preserves x b col hx)
    · exact ih (fillStep t c) hc (by rw [fillStep_cols]; exact hmem)

/-- A percentage step does not change the column list. -/
theorem pctStep_cols (t : Table) (m : String × String × String) :
    (pctStep t m).cols = t.cols := by
  obtain ⟨pct, att, made⟩ := m
  unfold pctStep
  dsimp only
  repeat' split
  all_goals rfl

end MissingValueHandler

/-- C7: after the missing-value stage with fill_counting_stats_with_zero
enabled, no null remains in any counting-stat column present in the table,
for every input table. -/
theorem C7_counting_stats_filled
    (cfg : CleaningConfig) (t : Table) (col : String)
    (hfill : cfg.fill_counting_stats_with_zero = true)
    (hcol : col ∈ counting_stats) (hmem : col ∈ t.cols) :
    ∀ r ∈ (MissingValueHandler.transform_impl cfg t).rows, (r.get col).isNull = false := by
  unfold MissingValueHandler.transform_impl
  rw [hfill]
  simp only [if_true]
  have h1cols : (percentage_mappings.foldl MissingValueHandler.pctStep t).cols = t.cols :=
    foldl_preserve (fun t' => t'.cols = t.cols) MissingValueHandler.pctStep
      percentage_mappings t rfl
      (fun x b _ hx => by
        show (MissingValueHandler.pctStep x b).cols = t.cols
        rw [MissingValueHandler.pctStep_cols]
        exact hx)
  have h2 := MissingValueHandler.foldl_fillStep_not_null counting_stats col
    (percentage_mappings.foldl MissingValueHandler.pctStep t) hcol (by rw [h1cols]; exact hmem)
  split
  · exact MissingValueHandler.fillna_setCol_preserves _ _ _ h2
  · exact h2

/-- Witness for C7: a one-column table holding a single null pts cell. -/
theorem C7_counting_stats_filled_witness :
    defaultConfig.fill_counting_stats_with_zero = true ∧
    "pts" ∈ counting_stats ∧
    (∀ r ∈ (MissingValueHandler.transform_impl defaultConfig
        ⟨["pts"], [[("pts", Val.null)]]⟩).rows, (r.get "pts").isNull = false) :=
  ⟨rfl, by decide,
    C7_counting_stats_filled defaultConfig ⟨["pts"], [[("pts", Val.null)]]⟩ "pts"
      rfl (by decide) (by decide)⟩

/-!
Claims C4 and C10: the DataValidator.  The frame relation `KeepCols` carries
row invariants through steps that write other columns.
-/

theorem keepCols_refl (S : List String) (t : Table) : KeepCols S t t :=
  ⟨id, (List.map_id t.rows).symm, fun _ _ _ => rfl⟩

theorem keepCols_trans {S : List String} {t₁ t₂ t₃ : Table}
    (h1 : KeepCols S t₁ t₂) (h2 : KeepCols S t₂ t₃) : KeepCols S t₁ t₃ := by
  obtain ⟨F, hF, hFk⟩ := h1
  obtain ⟨G, hG, hGk⟩ := h2
  refine ⟨G ∘ F, ?_, ?_⟩
  · rw [hG, hF, List.map_map]
  · intro r c hc
    calc (G (F r)).get c = (F r).get c := hGk (F r) c hc
    _ = r.get c := hFk r c hc

theorem keepCols_mapRows (S : List String) (t : Table) (f : Row → Row)
    (hf : ∀ r, ∀ c ∈ S, (f r).get c = r.get c) : KeepCols S t (t.mapRows f) :=
  ⟨f, rfl, hf⟩

theorem keepCols_setCol (S : List String) (t : Table) (c : String) (fv : Row → Val)
    (hc : c ∉ S) : KeepCols S t (t.setCol c fv) :=
  ⟨fun r => r.set c (fv r), rfl, fun _r _c' hc' =>
    Row.get_set_ne _ _ (fun h => hc (h ▸ hc'))⟩

/-- Kept columns have the same column values. -/
theorem keepCols_colVals {S : List String} {t t' : Table} (h : KeepCols S t t')
    {c : String} (hc : c ∈ S) : t'.colVals c = t.colVals c := by
  obtain ⟨F, hF, hk⟩ := h
  unfold Table.colVals
  rw [hF, List.map_map]
  exact List.map_congr_left (fun r _ => hk r c hc)

/-- A made-at-most-attempted row invariant transports along kept columns. -/
theorem keepCols_pair_le {t t' : Table} {c₁ c₂ : String}
    (h : KeepCols [c₁, c₂] t t')
    (hp : ∀ r ∈ t.rows, ∀ a b, r.get c₁ = Val.num a → r.get c₂ = Val.num b → a ≤ b) :
    ∀ r' ∈ t'.rows, ∀ a b, r'.get c₁ = Val.num a → r'.get c₂ = Val.num b → a ≤ b := by
  obtain ⟨F, hF, hk⟩ := h
  intro r' hr'
  rw [hF] at hr'
  simp only [List.mem_map] at hr'
  obtain ⟨r, hr, rfl⟩ := hr'
  intro a b ha hb
  rw [hk r c₁ (by simp)] at ha
  rw [hk r c₂ (by simp)] at hb
  exact hp r hr a b ha hb

/-- The rebound tolerance row invariant transports along kept columns. -/
theorem keepCols_reb_tol {t t' : Table}
    (h : KeepCols ["reb", "oreb", "dreb"] t t')
    (hp : ∀ r ∈ t.rows, ∀ x y z, r.get "reb" = Val.num x → r.get "oreb" = Val.num y →
      r.get "dreb" = Val.num z → |x - (y + z)| ≤ (0.1 : ℚ)) :
    ∀ r' ∈ t'.rows, ∀ x y z, r'.get "reb" = Val.num x → r'.get "oreb" = Val.num y →
      r'.get "dreb" = Val.num z → |x - (y + z)| ≤ (0.1 : ℚ) := by
  obtain ⟨F, hF, hk⟩ := h
  intro r' hr'
  rw [hF] at hr'
  simp only [List.mem_map] at hr'
  obtain ⟨r, hr, rfl⟩ := hr'
  intro x y z hx hy hz
  rw [hk r "reb" (by simp)] at hx
  rw [hk r "oreb" (by simp)] at hy
  rw [hk r "dreb" (by simp)] at hz
  exact hp r hr x y z hx hy hz

namespace DataValidator

theorem minutesStep_keep (cfg : CleaningConfig) (t : Table) (S : List String)
    (hS : "minutes_played" ∉ S) : KeepCols S t (minutesStep cfg t) := by
  unfold minutesStep
  split
  · split
    · refine keepCols_mapRows S t _ (fun r c hc => ?_)
      split
      · exact Row.get_set_ne _ _ (fun h => hS (h ▸ hc))
      · rfl
    · exact keepCols_refl S t
  · exact keepCols_refl S t

theorem shotStep_keep (cfg : CleaningConfig) (t : Table) (p : String × String)
    (S : List String) (hS : p.1 ∉ S) : KeepCols S t (shotStep cfg t p) := by
  unfold shotStep
  split
  · split
    · refine keepCols_mapRows S t _ (fun r c hc => ?_)
      split
      · exact Row.get_set_ne _ _ (fun h => hS (h ▸ hc))
      · rfl
    · exact keepCols_refl S t
  · exact keepCols_refl S t

theorem rebStep_keep (cfg : CleaningConfig) (t : Table) (S : List String)
    (hS : "reb" ∉ S) : KeepCols S t (rebStep cfg t) := by
  unfold rebStep
  split
  · split
    · exact keepCols_setCol S t _ _ hS
    · exact keepCols_refl S t
  · exact keepCols_refl S t

theorem pctClipStep_keep (cfg : CleaningConfig) (t : Table) (col : String)
    (S : List String) (hS : col ∉ S) : KeepCols S t (pctClipStep cfg t col) := by
  unfold pctClipStep
  split
  · split
    · exact keepCols_setCol S t _ _ hS
    · exact keepCols_refl S t
  · exact keepCols_refl S t

theorem shotFold_keep (cfg : CleaningConfig) (S : List String) :
    ∀ (l : List (String × String)) (t : Table), (∀ p ∈ l, p.1 ∉ S) →
      KeepCols S t (l.foldl (shotStep cfg) t) := by
  intro l
  induction l with
  | nil => intro t _; exact keepCols_refl S t
  | cons p ps ih =>
    intro t hl
    rw [List.foldl_cons]
    exact keepCols_trans (shotStep_keep cfg t p S (hl p (by simp)))
      (ih (shotStep cfg t p) (fun q hq => hl q (by simp [hq])))

theorem pctFold_keep (cfg : CleaningConfig) (S : List String) :
    ∀ (l : List String) (t : Table), (∀ c ∈ l, c ∉ S) →
      KeepCols S t (l.foldl (pctClipStep cfg) t) := by
  intro l
  induction l with
  | nil => intro t _; exact keepCols_refl S t
  | cons c cs ih =>
    intro t hl
    rw [List.foldl_cons]
    exact keepCols_trans (pctClipStep_keep cfg t c S (hl c (by simp)))
      (ih (pctClipStep cfg t c) (fun c' hc' => hl c' (by simp [hc'])))

theorem minutesStep_cols (cfg : CleaningConfig) (t : Table) :
    (minutesStep cfg t).cols = t.cols := by
  unfold minutesStep
  repeat' split
  all_goals rfl

theorem shotStep_cols (cfg : CleaningConfig) (t : Table) (p : String × String) :
    (shotStep cfg t p).cols = t.cols := by
  unfold shotStep
  repeat' split
  all_goals rfl

theorem shotFold_cols (cfg : CleaningConfig) (l : List (String × String)) (t : Table) :
    (l.foldl (shotStep cfg) t).cols = t.cols :=
  foldl_preserve (fun t' => t'.cols = t.cols) (shotStep cfg) l t rfl
    (fun x p _ hx => by
      show (shotStep cfg x p).cols = t.cols
      rw [shotStep_cols cfg x p]
      exact hx)

theorem rebStep_cols (cfg : CleaningConfig) (t : Table) :
    (rebStep cfg t).cols = t.cols := by
  unfold rebStep
  split
  · next h =>
      split
      · exact Table.setCol_cols_of_mem _ _ _ h.1
      · rfl
  · rfl

/-- After a shot-pair step on present, distinct columns with auto-fix on, every
numeric made value is at most the numeric attempted value. -/
theorem shotStep_pair_le (cfg : CleaningConfig) (t : Table) (p : String × String)
    (hfix : cfg.auto_fix_inconsistencies = true)
    (h1 : p.1 ∈ t.cols) (h2 : p.2 ∈ t.cols) (hne : p.1 ≠ p.2) :
    ∀ r' ∈ (shotStep cfg t p).rows, ∀ a b,
      r'.get p.1 = Val.num a → r'.get p.2 = Val.num b → a ≤ b := by
  unfold shotStep
  rw [if_pos ⟨h1, h2⟩]
  by_cases hany : t.rows.any (fun r => (r.get p.1).gtV (r.get p.2)) = true
  · rw [if_pos ⟨hany, hfix⟩]
    intro r' hr'
    simp only [Table.mapRows_rows, List.mem_map] at hr'
    obtain ⟨r, hr, rfl⟩ := hr'
    intro a b ha hb
    by_cases hg : (r.get p.1).gtV (r.get p.2) = true
    · rw [if_pos hg] at ha hb
      rw [Row.get_set_self] at ha
      rw [Row.get_set_ne _ _ (Ne.symm hne)] at hb
      rw [ha] at hb
      cases hb
      exact le_refl a
    · rw [if_neg hg] at ha hb
      rw [ha, hb] at hg
      simp only [Val.gtV, decide_eq_true_eq] at hg
      exact not_lt.1 hg
  · rw [if_neg (fun hc => hany hc.1)]
    intro r' hr' a b ha hb
    rw [Bool.not_eq_true] at hany
    have hall := List.any_eq_false.1 hany r' hr'
    rw [ha, hb] at hall
    simp only [Val.gtV, decide_eq_true_eq] at hall
    exact not_lt.1 hall

/-- After the rebound step on present columns with auto-fix on, every fully
numeric row has its total rebounds within tolerance of oreb + dreb. -/
theorem rebStep_reb_tol (cfg : CleaningConfig) (t : Table)
    (hfix : cfg.auto_fix_inconsistencies = true)
    (h1 : "reb" ∈ t.cols) (h2 : "oreb" ∈ t.cols) (h3 : "dreb" ∈ t.cols) :
    ∀ r' ∈ (rebStep cfg t).rows, ∀ x y z,
      r'.get "reb" = Val.num x → r'.get "oreb" = Val.num y → r'.get "dreb" = Val.num z →
      |x - (y + z)| ≤ (0.1 : ℚ) := by
  unfold rebStep
  rw [if_pos ⟨h1, h2, h3⟩]
  by_cases hany : t.rows.any (fun r =>
      ((r.get "reb").sub ((r.get "oreb").add (r.get "dreb"))).absGtQ 0.1) = true
  · rw [if_pos ⟨hany, hfix⟩]
    intro r' hr'
    simp only [Table.setCol_rows, List.mem_map] at hr'
    obtain ⟨r, hr, rfl⟩ := hr'
    intro x y z hx hy hz
    rw [Row.get_set_self] at hx
    rw [Row.get_set_ne _ _ (by decide : ("oreb" : String) ≠ "reb")] at hy
    rw [Row.get_set_ne _ _ (by decide : ("dreb" : String) ≠ "reb")] at hz
    rw [hy, hz] at hx
    simp only [Val.add] at hx
    injection hx with hx'
    rw [← hx', sub_self, abs_zero]
    norm_num
  · rw [if_neg (fun hc => hany hc.1)]
    intro r' hr' x y z hx hy hz
    rw [Bool.not_eq_true] at hany
    have hall := List.any_eq_false.1 hany r' hr'
    rw [hx, hy, hz] at hall
    simp only [Val.add, Val.sub, Val.absGtQ, decide_eq_true_eq] at hall
    exact not_lt.1 hall

/-- The validator transform written as its four phases. -/
theorem transform_impl_eq (cfg : CleaningConfig) (t : Table) :
    transform_impl cfg t =
      pct_columns.foldl (pctClipStep cfg)
        (rebStep cfg (shot_checks.foldl (shotStep cfg) (minutesStep cfg t))) := rfl

end DataValidator

/-- C4: after the validation stage with auto-fix enabled, every output row
satisfies made ≤ attempted for each present shot-type pair, and total
rebounds equal oreb + dreb within tolerance 0.1 when those columns are
present (stated on numeric cells; null cells admit no comparison). -/
theorem C4_validator_invariants
    (cfg : CleaningConfig) (t : Table)
    (hfix : cfg.auto_fix_inconsistencies = true) :
    (∀ p ∈ shot_checks, p.1 ∈ t.cols → p.2 ∈ t.cols →
      ∀ r ∈ (DataValidator.transform_impl cfg t).rows, ∀ a b,
        r.get p.1 = Val.num a → r.get p.2 = Val.num b → a ≤ b) ∧
    ("reb" ∈ t.cols → "oreb" ∈ t.cols → "dreb" ∈ t.cols →
      ∀ r ∈ (DataValidator.transform_impl cfg t).rows, ∀ x y z,
        r.get "reb" = Val.num x → r.get "oreb" = Val.num y → r.get "dreb" = Val.num z →
        |x - (y + z)| ≤ (0.1 : ℚ)) := by
  constructor
  · intro p hp h1 h2
    rw [DataValidator.transform_impl_eq]
    have ht1c : (DataValidator.minutesStep cfg t).cols = t.cols :=
      DataValidator.minutesStep_cols cfg t
    set t1 := DataValidator.minutesStep cfg t with ht1
    have hfold : shot_checks.foldl (DataValidator.shotStep cfg) t1 =
        DataValidator.shotStep cfg (DataValidator.shotStep cfg
          (DataValidator.shotStep cfg t1 ("fgm", "fga")) ("fg3m", "fg3a")) ("ftm", "fta") := rfl
    rw [hfold]
    set A := DataValidator.shotStep cfg t1 ("fgm", "fga") with hA
    set B := DataValidator.shotStep cfg A ("fg3m", "fg3a") with hB
    set C := DataValidator.shotStep cfg B ("ftm", "fta") with hC
    have hAc : A.cols = t.cols := by rw [hA, DataValidator.shotStep_cols, ht1c]
    have hBc : B.cols = t.cols := by rw [hB, DataValidator.shotStep_cols, hAc]
    simp only [shot_checks, List.mem_cons, List.not_mem_nil, or_false] at hp
    rcases hp with rfl | rfl | rfl
    · have hEst := DataValidator.shotStep_pair_le cfg t1 ("fgm", "fga") hfix
        (by rw [ht1c]; exact h1) (by rw [ht1c]; exact h2) (by decide)
      have hchain : KeepCols ["fgm", "fga"] A
          (pct_columns.foldl (DataValidator.pctClipStep cfg) (DataValidator.rebStep cfg C)) :=
        keepCols_trans (DataValidator.shotStep_keep cfg A ("fg3m", "fg3a") _ (by decide))
          (keepCols_trans (DataValidator.shotStep_keep cfg B ("ftm", "fta") _ (by decide))
            (keepCols_trans (DataValidator.rebStep_keep cfg C _ (by decide))
              (DataValidator.pctFold_keep cfg _ pct_columns _ (by decide))))
      exact keepCols_pair_le hchain hEst
    · have hEst := DataValidator.shotStep_pair_le cfg A ("fg3m", "fg3a") hfix
        (by rw [hAc]; exact h1) (by rw [hAc]; exact h2) (by decide)
      have hchain : KeepCols ["fg3m", "fg3a"] B
          (pct_columns.foldl (DataValidator.pctClipStep cfg) (DataValidator.rebStep cfg C)) :=
        keepCols_trans (DataValidator.shotStep_keep cfg B ("ftm", "fta") _ (by decide))
          (keepCols_trans (DataValidator.rebStep_keep cfg C _ (by decide))
            (DataValidator.pctFold_keep cfg _ pct_columns _ (by decide)))
      exact keepCols_pair_le hchain hEst
    · have hEst := DataValidator.shotStep_pair_le cfg B ("ftm", "fta") hfix
        (by rw [hBc]; exact h1) (by rw [hBc]; exact h2) (by decide)
      have hchain : KeepCols ["ftm", "fta"] C
          (pct_columns.foldl (DataValidator.pctClipStep cfg) (DataValidator.rebStep cfg C)) :=
        keepCols_trans (DataValidator.rebStep_keep cfg C _ (by decide))
          (DataValidator.pctFold_keep cfg _ pct_columns _ (by decide))
      exact keepCols_pair_le hchain hEst
  · intro h1 h2 h3
    rw [DataValidator.transform_impl_eq]
    have ht2c : (shot_checks.foldl (DataValidator.shotStep cfg)
        (DataValidator.minutesStep cfg t)).cols = t.cols := by
      rw [DataValidator.shotFold_cols, DataValidator.minutesStep_cols]
    set t2 := shot_checks.foldl (DataValidator.shotStep cfg)
      (DataValidator.minutesStep cfg t) with ht2
    have hEst := DataValidator.rebStep_reb_tol cfg t2 hfix
      (by rw [ht2c]; exact h1) (by rw [ht2c]; exact h2) (by rw [ht2c]; exact h3)
    have kpct : KeepCols ["reb", "oreb", "dreb"] (DataValidator.rebStep cfg t2)
        (pct_columns.foldl (DataValidator.pctClipStep cfg) (DataValidator.rebStep cfg t2)) :=
      DataValidator.pctFold_keep cfg _ pct_columns _ (by decide)
    exact keepCols_reb_tol kpct hEst

/-- Witness for C4 at a concrete table: one row with fgm > fga and a rebound
mismatch. -/
theorem C4_validator_invariants_witness :
    defaultConfig.auto_fix_inconsistencies = true ∧
    ((∀ p ∈ shot_checks,
        p.1 ∈ (⟨["fgm", "fga", "reb", "oreb", "dreb"],
          [[("fgm", Val.num 5), ("fga", Val.num 3), ("reb", Val.num 10),
            ("oreb", Val.num 2), ("dreb", Val.num 3)]]⟩ : Table).cols →
        p.2 ∈ (⟨["fgm", "fga", "reb", "oreb", "dreb"],
          [[("fgm", Val.num 5), ("fga", Val.num 3), ("reb", Val.num 10),
            ("oreb", Val.num 2), ("dreb", Val.num 3)]]⟩ : Table).cols →
        ∀ r ∈ (DataValidator.transform_impl defaultConfig
          ⟨["fgm", "fga", "reb", "oreb", "dreb"],
            [[("fgm", Val.num 5), ("fga", Val.num 3), ("reb", Val.num 10),
              ("oreb", Val.num 2), ("dreb", Val.num 3)]]⟩).rows, ∀ a b,
          r.get p.1 = Val.num a → r.get p.2 = Val.num b → a ≤ b) ∧
      ("reb" ∈ (⟨["fgm", "fga", "reb", "oreb", "dreb"],
          [[("fgm", Val.num 5), ("fga", Val.num 3), ("reb", Val.num 10),
            ("oreb", Val.num 2), ("dreb", Val.num 3)]]⟩ : Table).cols →
       "oreb" ∈ (⟨["fgm", "fga", "reb", "oreb", "dreb"],
          [[("fgm", Val.num 5), ("fga", Val.num 3), ("reb", Val.num 10),
            ("oreb", Val.num 2), ("dreb", Val.num 3)]]⟩ : Table).cols →
       "dreb" ∈ (⟨["fgm", "fga", "reb", "oreb", "dreb"],
          [[("fgm", Val.num 5), ("fga", Val.num 3), ("reb", Val.num 10),
            ("oreb", Val.num 2), ("dreb", Val.num 3)]]⟩ : Table).cols →
        ∀ r ∈ (DataValidator.transform_impl defaultConfig
          ⟨["fgm", "fga", "reb", "oreb", "dreb"],
            [[("fgm", Val.num 5), ("fga", Val.num 3), ("reb", Val.num 10),
              ("oreb", Val.num 2), ("dreb", Val.num 3)]]⟩).rows, ∀ x y z,
          r.get "reb" = Val.num x → r.get "oreb" = Val.num y → r.get "dreb" = Val.num z →
          |x - (y + z)| ≤ (0.1 : ℚ))) :=
  ⟨rfl, C4_validator_invariants defaultConfig _ rfl⟩

/-- C10: with auto-fix enabled and the rebound columns present, one record
whose total differs from oreb + dreb beyond the 0.1 tolerance makes the
validator overwrite reb with oreb + dreb in every row — rows that already
matched included — while, with no such record, every reb value is kept. -/
theorem C10_reb_autofix_scope
    (cfg : CleaningConfig) (t : Table)
    (hfix : cfg.auto_fix_inconsistencies = true)
    (h1 : "reb" ∈ t.cols) (h2 : "oreb" ∈ t.cols) (h3 : "dreb" ∈ t.cols) :
    (t.rows.any (fun r =>
        ((r.get "reb").sub ((r.get "oreb").add (r.get "dreb"))).absGtQ 0.1) = true →
      (DataValidator.transform_impl cfg t).colVals "reb" =
        t.rows.map (fun r => (r.get "oreb").add (r.get "dreb"))) ∧
    (t.rows.any (fun r =>
        ((r.get "reb").sub ((r.get "oreb").add (r.get "dreb"))).absGtQ 0.1) = false →
      (DataValidator.transform_impl cfg t).colVals "reb" = t.colVals "reb") := by
  rw [DataValidator.transform_impl_eq]
  have ht2c : (shot_checks.foldl (DataValidator.shotStep cfg)
      (DataValidator.minutesStep cfg t)).cols = t.cols := by
    rw [DataValidator.shotFold_cols, DataValidator.minutesStep_cols]
  set t2 := shot_checks.foldl (DataValidator.shotStep cfg)
    (DataValidator.minutesStep cfg t) with ht2
  have hkeep : KeepCols ["reb", "oreb", "dreb"] t t2 := by
    rw [ht2]
    exact keepCols_trans (DataValidator.minutesStep_keep cfg t _ (by decide))
      (DataValidator.shotFold_keep cfg _ shot_checks _ (by decide))
  obtain ⟨F, hF, hk⟩ := hkeep
  have hmism : t2.rows.any (fun r =>
      ((r.get "reb").sub ((r.get "oreb").add (r.get "dreb"))).absGtQ 0.1) =
      t.rows.any (fun r =>
      ((r.get "reb").sub ((r.get "oreb").add (r.get "dreb"))).absGtQ 0.1) := by
    rw [hF, List.any_map]
    congr 1
    funext r
    simp only [Function.comp]
    rw [hk r "reb" (by simp), hk r "oreb" (by simp), hk r "dreb" (by simp)]
  have hmem : "reb" ∈ t2.cols ∧ "oreb" ∈ t2.cols ∧ "dreb" ∈ t2.cols := by
    rw [ht2c]
    exact ⟨h1, h2, h3⟩
  constructor
  · intro hmm
    have hreb : DataValidator.rebStep cfg t2 =
        t2.setCol "reb" (fun r => (r.get "oreb").add (r.get "dreb")) := by
      unfold DataValidator.rebStep
      rw [if_pos hmem, if_pos ⟨by rw [hmism]; exact hmm, hfix⟩]
    have kpct : KeepCols ["reb"] (DataValidator.rebStep cfg t2)
        (pct_columns.foldl (DataValidator.pctClipStep cfg) (DataValidator.rebStep cfg t2)) :=
      DataValidator.pctFold_keep cfg _ pct_columns _ (by decide)
    rw [keepCols_colVals kpct (by simp), hreb, Table.colVals_setCol_self, hF, List.map_map]
    refine List.map_congr_left (fun r _ => ?_)
    simp only [Function.comp]
    rw [hk r "oreb" (by simp), hk r "dreb" (by simp)]
  · intro hmm
    have hreb : DataValidator.rebStep cfg t2 = t2 := by
      unfold DataValidator.rebStep
      rw [if_pos hmem, if_neg ?hneg]
      case hneg =>
        rintro ⟨hc, -⟩
        rw [hmism, hmm] at hc
        exact Bool.false_ne_true hc
    have kpct : KeepCols ["reb"] (DataValidator.rebStep cfg t2)
        (pct_columns.foldl (DataValidator.pctClipStep cfg) (DataValidator.rebStep cfg t2)) :=
      DataValidator.pctFold_keep cfg _ pct_columns _ (by decide)
    rw [keepCols_colVals kpct (by simp), hreb]
    exact keepCols_colVals ⟨F, hF, hk⟩ (by simp)

/-- Witness for C10 at a concrete table containing a rebound mismatch. -/
theorem C10_reb_autofix_scope_witness :
    defaultConfig.auto_fix_inconsistencies = true ∧
    (((⟨["reb", "oreb", "dreb"],
        [[("reb", Val.num 10), ("oreb", Val.num 2), ("dreb", Val.num 3)]]⟩ : Table).rows.any
        (fun r =>
          ((r.get "reb").sub ((r.get "oreb").add (r.get "dreb"))).absGtQ 0.1) = true →
      (DataValidator.transform_impl defaultConfig
        ⟨["reb", "oreb", "dreb"],
          [[("reb", Val.num 10), ("oreb", Val.num 2), ("dreb", Val.num 3)]]⟩).colVals "reb" =
        (⟨["reb", "oreb", "dreb"],
          [[("reb", Val.num 10), ("oreb", Val.num 2), ("dreb", Val.num 3)]]⟩ : Table).rows.map
          (fun r => (r.get "oreb").add (r.get "dreb"))) ∧
    ((⟨["reb", "oreb", "dreb"],
        [[("reb", Val.num 10), ("oreb", Val.num 2), ("dreb", Val.num 3)]]⟩ : Table).rows.any
        (fun r =>
          ((r.get "reb").sub ((r.get "oreb").add (r.get "dreb"))).absGtQ 0.1) = false →
      (DataValidator.transform_impl defaultConfig
        ⟨["reb", "oreb", "dreb"],
          [[("reb", Val.num 10), ("oreb", Val.num 2), ("dreb", Val.num 3)]]⟩).colVals "reb" =
        (⟨["reb", "oreb", "dreb"],
          [[("reb", Val.num 10), ("oreb", Val.num 2), ("dreb", Val.num 3)]]⟩ : Table).colVals
          "reb")) :=
  ⟨rfl, C10_reb_autofix_scope defaultConfig _ rfl (by decide) (by decide) (by decide)⟩

/-!
Claims C5 and C6: the MinutesConverter parsing lemmas.
-/

/-- A digit character is not Python whitespace. -/
theorem isPySpace_of_digit {c : Char} (h : c.isDigit = true) : isPySpace c = false := by
  by_contra hw
  rw [Bool.not_eq_false] at hw
  simp only [isPySpace, Bool.or_eq_true, decide_eq_true_eq] at hw
  rcases hw with ((((h1 | h1) | h1) | h1) | h1) | h1 <;> subst h1 <;>
    exact absurd h (by decide)

theorem dropWhile_eq_self_of_all {p : Char → Bool} (l : List Char)
    (h : ∀ c ∈ l, p c = false) : l.dropWhile p = l := by
  cases l with
  | nil => rfl
  | cons a as =>
    rw [List.dropWhile_cons, if_neg]
    rw [h a (by simp)]
    exact Bool.false_ne_true

/-- Stripping a string with no surrounding whitespace is the identity. -/
theorem pyStrip_eq_self (l : List Char) (h : ∀ c ∈ l, isPySpace c = false) :
    pyStrip l = l := by
  unfold pyStrip
  rw [dropWhile_eq_self_of_all l h]
  rw [dropWhile_eq_self_of_all l.reverse (fun c hc => h c (List.mem_reverse.1 hc))]
  exact List.reverse_reverse l

theorem mem_of_mem_dropWhile {p : Char → Bool} (l : List Char) :
    ∀ c ∈ l.dropWhile p, c ∈ l := by
  induction l with
  | nil => intro c hc; exact hc
  | cons a as ih =>
    intro c hc
    rw [List.dropWhile_cons] at hc
    split at hc
    · exact List.mem_cons_of_mem a (ih c hc)
    · exact hc

/-- Characters of the stripped string come from the string. -/
theorem mem_of_mem_pyStrip (l : List Char) : ∀ c ∈ pyStrip l, c ∈ l := by
  intro c hc
  unfold pyStrip at hc
  rw [List.mem_reverse] at hc
  have h1 := mem_of_mem_dropWhile _ c hc
  rw [List.mem_reverse] at h1
  exact mem_of_mem_dropWhile l c h1

/-- A split never yields an empty chunk list. -/
theorem splitOnChar_ne_nil (sep : Char) (l : List Char) : splitOnChar sep l ≠ [] := by
  cases l with
  | nil => simp [splitOnChar]
  | cons c rest =>
    unfold splitOnChar
    by_cases hc : c = sep
    · rw [if_pos hc]
      simp
    · rw [if_neg hc]
      cases hrec : splitOnChar sep rest with
      | nil => simp
      | cons g gs => simp

/-- Splitting a string that avoids the separator yields one chunk. -/
theorem splitOnChar_no_sep (sep : Char) (l : List Char) (h : ∀ c ∈ l, c ≠ sep) :
    splitOnChar sep l = [l] := by
  induction l with
  | nil => rfl
  | cons c rest ih =>
    unfold splitOnChar
    rw [if_neg (h c (by simp))]
    rw [ih (fun c' hc' => h c' (by simp [hc']))]

/-- The defining equation of splitOnChar on a cons cell. -/
theorem splitOnChar_cons (sep c : Char) (rest : List Char) :
    splitOnChar sep (c :: rest) =
      if c = sep then [] :: splitOnChar sep rest
      else
        match splitOnChar sep rest with
        | [] => [[c]]
        | g :: gs => (c :: g) :: gs := by
  conv_lhs => rw [splitOnChar]

/-- Splitting around the first separator occurrence. -/
theorem splitOnChar_append (sep : Char) (m s : List Char) (hm : ∀ c ∈ m, c ≠ sep) :
    splitOnChar sep (m ++ sep :: s) = m :: splitOnChar sep s := by
  induction m with
  | nil =>
    rw [List.nil_append, splitOnChar_cons, if_pos rfl]
  | cons c cs ih =>
    rw [List.cons_append, splitOnChar_cons, if_neg (hm c (by simp)),
        ih (fun c' hc' => hm c' (by simp [hc']))]

/-- Characters of a split chunk come from the split string. -/
theorem mem_of_mem_splitOnChar (sep : Char) (l : List Char) :
    ∀ g ∈ splitOnChar sep l, ∀ c ∈ g, c ∈ l := by
  induction l with
  | nil =>
    intro g hg c hc
    simp only [splitOnChar, List.mem_singleton] at hg
    subst hg
    cases hc
  | cons a rest ih =>
    intro g hg c hc
    unfold splitOnChar at hg
    by_cases ha : a = sep
    · rw [if_pos ha] at hg
      rcases List.mem_cons.1 hg with rfl | hg'
      · cases hc
      · exact List.mem_cons_of_mem a (ih g hg' c hc)
    · rw [if_neg ha] at hg
      cases hrec : splitOnChar sep rest with
      | nil => exact absurd hrec (splitOnChar_ne_nil sep rest)
      | cons g0 gs =>
        rw [hrec] at hg
        rcases List.mem_cons.1 hg with rfl | hg'
        · rcases List.mem_cons.1 hc with rfl | hc'
          · exact List.mem_cons_self c rest
          · exact List.mem_cons_of_mem a
              (ih g0 (by rw [hrec]; exact List.mem_cons_self g0 gs) c hc')
        · exact List.mem_cons_of_mem a
            (ih g (by rw [hrec]; exact List.mem_cons_of_mem g0 hg') c hc)

/-- An element at an in-range position belongs to the list. -/
theorem getD_mem_of_lt {α : Type} (l : List α) (n : ℕ) (d : α) (h : n < l.length) :
    l.getD n d ∈ l := by
  rw [List.getD_eq_getElem l d h]
  exact List.getElem_mem h

/-- An ASCII digit has code at most 57. -/
theorem digit_toNat_le {c : Char} (h : c.isDigit = true) : c.toNat ≤ 57 := by
  simp only [Char.isDigit, Bool.and_eq_true, decide_eq_true_eq] at h
  exact h.2

/-- A digit matches no letter case-insensitively. -/
theorem charIC_eq_false_of_digit {c : Char} (h : c.isDigit = true) (w : Char)
    (hw : w.isDigit = false) (hwn : 58 ≤ w.toNat - 32) : charIC c w = false := by
  have hle := digit_toNat_le h
  unfold charIC
  rw [Bool.or_eq_false_iff]
  constructor
  · exact decide_eq_false (fun heq => by rw [heq] at h; rw [h] at hw; exact Bool.noConfusion hw)
  · exact decide_eq_false (fun heq => by omega)

/-- A nonempty digit string matches no letter-headed word. -/
theorem wordIC_digits_false (l w : List Char) (hl : l ≠ [])
    (h : ∀ c ∈ l, c.isDigit = true) (hw : w ≠ [])
    (hwh : (w.headD ' ').isDigit = false) (hwn : 58 ≤ (w.headD ' ').toNat - 32) :
    wordIC l w = false := by
  cases l with
  | nil => exact absurd rfl hl
  | cons c cs =>
    cases w with
    | nil => exact absurd rfl hw
    | cons a ws =>
      rw [List.headD_cons] at hwh hwn
      unfold wordIC
      rw [charIC_eq_false_of_digit (h c (by simp)) a hwh hwn]
      rfl

/-- Splitting an exponent-marker-free string finds no exponent. -/
theorem splitExp_no_e (l : List Char) (h : ∀ c ∈ l, c ≠ 'e' ∧ c ≠ 'E') :
    splitExp l = (l, Option.none) := by
  induction l with
  | nil => rfl
  | cons c rest ih =>
    have hc := h c (by simp)
    unfold splitExp
    rw [if_neg (by rintro (rfl | rfl); exacts [hc.1 rfl, hc.2 rfl])]
    rw [ih (fun c' hc' => h c' (List.mem_cons_of_mem c hc'))]

/-- An all-digit tail is a valid digit-group tail. -/
theorem usTail_digits (l : List Char) (h : ∀ c ∈ l, c.isDigit = true) :
    usTail l = true := by
  induction l with
  | nil => rfl
  | cons c rest ih =>
    unfold usTail
    rw [if_neg (fun heq => absurd (heq ▸ h c (by simp)) (by decide))]
    rw [h c (by simp), ih (fun c' hc' => h c' (List.mem_cons_of_mem c hc'))]
    rfl

/-- A nonempty all-digit string is a valid digit group. -/
theorem usDigitsValid_digits (l : List Char) (hne : l ≠ [])
    (h : ∀ c ∈ l, c.isDigit = true) : usDigitsValid l = true := by
  cases l with
  | nil => exact absurd rfl hne
  | cons c cs =>
    unfold usDigitsValid
    show (c.isDigit && usTail cs) = true
    rw [h c (by simp), usTail_digits cs (fun c' hc' => h c' (List.mem_cons_of_mem c hc'))]
    rfl

/-- On an all-digit string the group value is the digit value. -/
theorem usVal_digits (l : List Char) (h : ∀ c ∈ l, c.isDigit = true) :
    usVal l = digitsVal l := by
  have hall : ∀ c ∈ l, (decide (c ≠ '_')) = true := fun c hc =>
    decide_eq_true (fun heq => absurd (heq ▸ h c hc) (by decide))
  unfold usVal
  rw [List.filter_eq_self.2 hall]

/-- Parsing a nonempty digit string as a mantissa yields its numeric value. -/
theorem parseMantissa_digits (l : List Char) (hne : l ≠ [])
    (h : ∀ c ∈ l, c.isDigit = true) : parseMantissa l = some ((digitsVal l : ℚ)) := by
  have hsplit : splitOnChar '.' l = [l] :=
    splitOnChar_no_sep '.' l (fun c hc heq => absurd (heq ▸ h c hc) (by decide))
  unfold parseMantissa
  rw [hsplit]
  show (if usDigitsValid l = true then some ((usVal l : ℚ)) else Option.none) = _
  rw [if_pos (usDigitsValid_digits l hne h), usVal_digits l h]

/-- A nonempty digit string is a finite float body with its digit value. -/
theorem parseBody_digits (l : List Char) (hne : l ≠ [])
    (h : ∀ c ∈ l, c.isDigit = true) :
    parseBody l = some (PyFloat.num ((digitsVal l : ℚ))) := by
  have hn : wordIC l ("nan".data) = false :=
    wordIC_digits_false l _ hne h (by decide) (by decide) (by decide)
  have hi : wordIC l ("inf".data) = false :=
    wordIC_digits_false l _ hne h (by decide) (by decide) (by decide)
  have hif : wordIC l ("infinity".data) = false :=
    wordIC_digits_false l _ hne h (by decide) (by decide) (by decide)
  have he : splitExp l = (l, Option.none) :=
    splitExp_no_e l (fun c hc => ⟨fun heq => absurd (heq ▸ h c hc) (by decide),
      fun heq => absurd (heq ▸ h c hc) (by decide)⟩)
  unfold parseBody
  rw [if_neg (by rw [hn]; exact Bool.false_ne_true)]
  rw [if_neg (by rw [hi, hif]; rintro (hc | hc) <;> exact Bool.noConfusion hc)]
  rw [he]
  dsimp only
  rw [parseMantissa_digits l hne h]
  rfl

/-- Python float() of a nonempty digit string yields its numeric value. -/
theorem pyFloat_digits (l : List Char) (hne : l ≠ [])
    (h : ∀ c ∈ l, c.isDigit = true) :
    pyFloat? l = some (PyFloat.num ((digitsVal l : ℚ))) := by
  cases l with
  | nil => exact absurd rfl hne
  | cons c cs =>
    have hcd := h c (by simp)
    have hstrip : pyStrip (c :: cs) = c :: cs :=
      pyStrip_eq_self _ (fun c' hc' => isPySpace_of_digit (h c' hc'))
    have h1 : ¬((c :: cs) ≠ [] ∧ (c :: cs).headD ' ' = '-') := by
      rintro ⟨-, hh⟩
      rw [List.headD_cons] at hh
      subst hh
      exact absurd hcd (by decide)
    have h2 : ¬((c :: cs) ≠ [] ∧ (c :: cs).headD ' ' = '+') := by
      rintro ⟨-, hh⟩
      rw [List.headD_cons] at hh
      subst hh
      exact absurd hcd (by decide)
    unfold pyFloat?
    rw [hstrip, if_neg h1, if_neg h2]
    exact parseBody_digits (c :: cs) hne h

/-- The colon form: digit minutes and digit seconds chunks parse to M + S/60. -/
theorem convert_to_decimal_MS (m s : List Char) (hm : m ≠ []) (hs : s ≠ [])
    (hdm : ∀ c ∈ m, c.isDigit = true) (hds : ∀ c ∈ s, c.isDigit = true) :
    MinutesConverter.convert_to_decimal (PyVal.str (m ++ ':' :: s)) =
      PyFloat.num ((digitsVal m : ℚ) + (digitsVal s : ℚ) / 60) := by
  have hnosp : ∀ c ∈ m ++ ':' :: s, isPySpace c = false := by
    intro c hc
    rcases List.mem_append.1 hc with hc' | hc'
    · exact isPySpace_of_digit (hdm c hc')
    · rcases List.mem_cons.1 hc' with rfl | hc''
      · decide
      · exact isPySpace_of_digit (hds c hc'')
  have hstrip : pyStrip (m ++ ':' :: s) = m ++ ':' :: s := pyStrip_eq_self _ hnosp
  have hmns : ∀ c ∈ m, c ≠ ':' := fun c hc heq => absurd (heq ▸ hdm c hc) (by decide)
  have hsns : ∀ c ∈ s, c ≠ ':' := fun c hc heq => absurd (heq ▸ hds c hc) (by decide)
  have hsplit : splitOnChar ':' (pyStrip (m ++ ':' :: s)) = [m, s] := by
    rw [hstrip, splitOnChar_append ':' m s hmns, splitOnChar_no_sep ':' s hsns]
  unfold MinutesConverter.convert_to_decimal
  dsimp only
  rw [if_neg (by simp : ¬(m ++ ':' :: s = []))]
  rw [if_pos (by rw [hstrip]; simp : ':' ∈ pyStrip (m ++ ':' :: s))]
  rw [hsplit]
  simp only [List.getD_cons_zero, List.getD_cons_succ, List.length_cons, List.length_nil]
  rw [pyFloat_digits m hm hdm, pyFloat_digits s hs hds]
  simp [PyFloat.addF, PyFloat.div60]

/-- A successfully parsed mantissa is non-negative. -/
theorem parseMantissa_nonneg (l : List Char) (q : ℚ) (h : parseMantissa l = some q) :
    0 ≤ q := by
  unfold parseMantissa at h
  cases hsplit : splitOnChar '.' l with
  | nil =>
    rw [hsplit] at h
    dsimp only at h
    exact absurd h (by simp)
  | cons ip rest =>
    cases rest with
    | nil =>
      rw [hsplit] at h
      dsimp only at h
      split at h
      · injection h with h'
        rw [← h']
        positivity
      · exact absurd h (by simp)
    | cons fp rest2 =>
      cases rest2 with
      | nil =>
        rw [hsplit] at h
        dsimp only at h
        split at h
        · injection h with h'
          rw [← h']
          positivity
        · exact absurd h (by simp)
      | cons g gs =>
        rw [hsplit] at h
        dsimp only at h
        exact absurd h (by simp)

/-- A finite parse of a signless float body is non-negative. -/
theorem parseBody_num_nonneg (l : List Char) (q : ℚ)
    (h : parseBody l = some (PyFloat.num q)) : 0 ≤ q := by
  unfold parseBody at h
  split at h
  · exact absurd h (by simp)
  · split at h
    · exact absurd h (by simp)
    · cases hsp : (splitExp l).2 with
      | none =>
        rw [hsp] at h
        dsimp only at h
        cases hpm : parseMantissa l with
        | none => rw [hpm] at h; exact absurd h (by simp)
        | some q' =>
          rw [hpm] at h
          injection h with h'
          injection h' with h''
          rw [← h'']
          exact parseMantissa_nonneg l q' hpm
      | some ex =>
        rw [hsp] at h
        dsimp only at h
        cases hpm : parseMantissa (splitExp l).1 with
        | none => rw [hpm] at h; exact absurd h (by simp)
        | some q' =>
          rw [hpm] at h
          cases hpe : parseExp ex with
          | none => rw [hpe] at h; exact absurd h (by simp)
          | some z =>
            rw [hpe] at h
            simp only [Option.some.injEq, PyFloat.num.injEq] at h
            rw [← h]
            exact mul_nonneg (parseMantissa_nonneg _ q' hpm)
              (zpow_nonneg (by norm_num) z)

/-- A float() success on a minus-free string is non-negative when finite. -/
theorem pyFloat_num_nonneg_of_no_minus (s : List Char) (hns : '-' ∉ s) (q : ℚ)
    (h : pyFloat? s = some (PyFloat.num q)) : 0 ≤ q := by
  unfold pyFloat? at h
  cases hps : pyStrip s with
  | nil =>
    rw [hps] at h
    rw [if_neg (by rintro ⟨hne, -⟩; exact hne rfl)] at h
    rw [if_neg (by rintro ⟨hne, -⟩; exact hne rfl)] at h
    exact parseBody_num_nonneg [] q h
  | cons c cs =>
    have hcm : c ∈ s := mem_of_mem_pyStrip s c (by rw [hps]; simp)
    have hcne : c ≠ '-' := fun heq => hns (heq ▸ hcm)
    rw [hps] at h
    rw [if_neg (by rintro ⟨-, hh⟩; rw [List.headD_cons] at hh; exact hcne hh)] at h
    by_cases hplus : c = '+'
    · rw [if_pos ⟨by simp, by rw [List.headD_cons]; exact hplus⟩] at h
      exact parseBody_num_nonneg _ q h
    · rw [if_neg (by rintro ⟨-, hh⟩; rw [List.headD_cons] at hh; exact hplus hh)] at h
      exact parseBody_num_nonneg _ q h

/-- Converting a minus-free string never yields a negative number: any finite
result is non-negative.  The result can still be NaN, e.g. on "nan". -/
theorem convert_str_num_nonneg (s : List Char) (hns : '-' ∉ s) (q : ℚ)
    (h : MinutesConverter.convert_to_decimal (PyVal.str s) = PyFloat.num q) : 0 ≤ q := by
  unfold MinutesConverter.convert_to_decimal at h
  dsimp only at h
  split at h
  · injection h with h'
    rw [← h']
  · split at h
    · split at h
      · injection h with h'
        rw [← h']
      · next m hm =>
          split at h
          · injection h with h'
            rw [← h']
          · next sec hsec =>
              have hnm : '-' ∉ (splitOnChar ':' (pyStrip s)).getD 0 [] := by
                intro hmem
                have hlt : 0 < (splitOnChar ':' (pyStrip s)).length := by
                  cases hsp : splitOnChar ':' (pyStrip s) with
                  | nil => exact absurd hsp (splitOnChar_ne_nil ':' (pyStrip s))
                  | cons g gs => simp [hsp]
                exact hns (mem_of_mem_pyStrip s _ (mem_of_mem_splitOnChar ':' _ _
                  (getD_mem_of_lt _ 0 [] hlt) _ hmem))
              cases m with
              | num a =>
                cases sec with
                | num b =>
                  have ha : 0 ≤ a := pyFloat_num_nonneg_of_no_minus _ hnm a hm
                  have hb : 0 ≤ b := by
                    by_cases hlen : (splitOnChar ':' (pyStrip s)).length > 1
                    · rw [if_pos hlen] at hsec
                      have hnm1 : '-' ∉ (splitOnChar ':' (pyStrip s)).getD 1 [] := by
                        intro hmem
                        exact hns (mem_of_mem_pyStrip s _ (mem_of_mem_splitOnChar ':' _ _
                          (getD_mem_of_lt _ 1 [] hlen) _ hmem))
                      exact pyFloat_num_nonneg_of_no_minus _ hnm1 b hsec
                    · rw [if_neg hlen] at hsec
                      injection hsec with h'
                      injection h' with h''
                      rw [← h'']
                  simp only [PyFloat.addF, PyFloat.div60, PyFloat.num.injEq] at h
                  rw [← h]
                  have hdiv : (0:ℚ) ≤ b / 60 := div_nonneg hb (by norm_num)
                  linarith
                | nan => exact absurd h (by simp [PyFloat.addF, PyFloat.div60])
                | inf b => exact absurd h (by simp [PyFloat.addF, PyFloat.div60])
              | nan => exact absurd h (by simp [PyFloat.addF, PyFloat.div60])
              | inf a =>
                cases sec with
                | num b => exact absurd h (by simp [PyFloat.addF, PyFloat.div60])
                | nan => exact absurd h (by simp [PyFloat.addF, PyFloat.div60])
                | inf b =>
                  by_cases hab : a = b
                  · exact absurd h (by simp [PyFloat.addF, PyFloat.div60, hab])
                  · exact absurd h (by simp [PyFloat.addF, PyFloat.div60, hab])
    · cases hp : pyFloat? (pyStrip s) with
      | none =>
        rw [hp] at h
        injection h with h'
        rw [← h']
      | some pf =>
        rw [hp] at h
        cases pf with
        | num q' =>
          have hnps : '-' ∉ pyStrip s := fun hmem => hns (mem_of_mem_pyStrip s _ hmem)
          have := pyFloat_num_nonneg_of_no_minus _ hnps q' hp
          injection h with h'
          rw [← h']
          exact this
        | nan => exact absurd h (by simp)
        | inf b => exact absurd h (by simp)

/-- C5 counterexample: a minute string with a missing seconds component yields
0.0 rather than defaulting the seconds to 0 (which would give 30.0): a
colon split always produces a second chunk, so the seconds-default branch
of line 169 is unreachable and float('') raises instead. -/
theorem C5_missing_seconds_counterexample :
    MinutesConverter.convert_to_decimal (PyVal.str ['3', '0', ':']) = PyFloat.num 0 ∧
    (0 : ℚ) ≠ 30 := ⟨rfl, by norm_num⟩

/-- C5 (amended): convert_to_decimal maps every digit string pair "M:S" to
M + S/60 (so "30:45" yields 30.75), maps a numeric input n to the float n,
and maps absent, empty or unparsable input to 0.0 without ever raising; a
string with a missing seconds component ("M:") is unparsable and yields
0.0 — the seconds-default-to-0 branch is unreachable. -/
theorem C5_convert_to_decimal_amended :
    (∀ m s : List Char, m ≠ [] → s ≠ [] → (∀ c ∈ m, c.isDigit = true) →
      (∀ c ∈ s, c.isDigit = true) →
      MinutesConverter.convert_to_decimal (PyVal.str (m ++ ':' :: s)) =
        PyFloat.num ((digitsVal m : ℚ) + (digitsVal s : ℚ) / 60)) ∧
    MinutesConverter.convert_to_decimal (PyVal.str ['3', '0', ':', '4', '5']) =
      PyFloat.num 30.75 ∧
    (∀ q : ℚ, MinutesConverter.convert_to_decimal (PyVal.num q) = PyFloat.num q) ∧
    MinutesConverter.convert_to_decimal PyVal.none = PyFloat.num 0 ∧
    MinutesConverter.convert_to_decimal (PyVal.str []) = PyFloat.num 0 ∧
    (∀ s : List Char, s ≠ [] → ':' ∉ pyStrip s → pyFloat? (pyStrip s) = Option.none →
      MinutesConverter.convert_to_decimal (PyVal.str s) = PyFloat.num 0) ∧
    (∀ m : List Char, m ≠ [] → (∀ c ∈ m, c.isDigit = true) →
      MinutesConverter.convert_to_decimal (PyVal.str (m ++ [':'])) = PyFloat.num 0) := by
  refine ⟨convert_to_decimal_MS, ?_, fun q => rfl, rfl, rfl, ?_, ?_⟩
  · have h := convert_to_decimal_MS ['3', '0'] ['4', '5'] (by decide) (by decide)
      (by decide) (by decide)
    rw [show (['3', '0', ':', '4', '5'] : List Char) = ['3', '0'] ++ ':' :: ['4', '5']
        from rfl, h]
    rw [show digitsVal ['3', '0'] = 30 from by decide,
        show digitsVal ['4', '5'] = 45 from by decide]
    congr 1
    norm_num
  · intro s hne hnc hpf
    unfold MinutesConverter.convert_to_decimal
    dsimp only
    rw [if_neg hne, if_neg hnc, hpf]
    rfl
  · intro m hm hdm
    have hnosp : ∀ c ∈ m ++ [':'], isPySpace c = false := by
      intro c hc
      rcases List.mem_append.1 hc with hc' | hc'
      · exact isPySpace_of_digit (hdm c hc')
      · rcases List.mem_cons.1 hc' with rfl | hc''
        · decide
        · cases hc''
    have hstrip : pyStrip (m ++ [':']) = m ++ [':'] := pyStrip_eq_self _ hnosp
    have hmns : ∀ c ∈ m, c ≠ ':' := fun c hc heq => absurd (heq ▸ hdm c hc) (by decide)
    have hsplit : splitOnChar ':' (pyStrip (m ++ [':'])) = [m, []] := by
      rw [hstrip, show m ++ [':'] = m ++ ':' :: [] from rfl,
          splitOnChar_append ':' m [] hmns]
      rfl
    unfold MinutesConverter.convert_to_decimal
    dsimp only
    rw [if_neg (by simp : ¬(m ++ [':'] = []))]
    rw [if_pos (by rw [hstrip]; simp : ':' ∈ pyStrip (m ++ [':']))]
    rw [hsplit]
    simp only [List.getD_cons_zero, List.getD_cons_succ, List.length_cons, List.length_nil]
    rw [pyFloat_digits m hm hdm]
    simp [show pyFloat? [] = Option.none from rfl]

/-- Witness for the amended C5 at the concrete string "3:45". -/
theorem C5_convert_to_decimal_witness :
    (['3'] : List Char) ≠ [] ∧ (['4', '5'] : List Char) ≠ [] ∧
    MinutesConverter.convert_to_decimal (PyVal.str (['3'] ++ ':' :: ['4', '5'])) =
      PyFloat.num ((digitsVal ['3'] : ℚ) + (digitsVal ['4', '5'] : ℚ) / 60) :=
  ⟨by decide, by decide,
    C5_convert_to_decimal_amended.1 ['3'] ['4', '5'] (by decide) (by decide)
      (by decide) (by decide)⟩

/-- C6 counterexample: a negative numeric input passes through as a negative
float, so the result is not non-negative for every input. -/
theorem C6_nonneg_counterexample :
    MinutesConverter.convert_to_decimal (PyVal.num (-5)) = PyFloat.num (-5) ∧
    (-5 : ℚ) < 0 := ⟨rfl, by norm_num⟩

/-- C6 (amended): the converter is total, returning a float for every input;
an absent input yields 0.0 and a numeric input passes through, so a
negative numeric input yields a negative float; a string input without a
minus sign never yields a negative number — every finite result on it is
non-negative — but it need not yield a non-negative number: float('nan')
succeeds, so the string "nan" converts to NaN, which satisfies no order
comparison. -/
theorem C6_convert_nonneg_amended :
    MinutesConverter.convert_to_decimal PyVal.none = PyFloat.num 0 ∧
    (∀ q : ℚ, MinutesConverter.convert_to_decimal (PyVal.num q) = PyFloat.num q) ∧
    (∀ s : List Char, '-' ∉ s → ∀ q : ℚ,
      MinutesConverter.convert_to_decimal (PyVal.str s) = PyFloat.num q → 0 ≤ q) ∧
    MinutesConverter.convert_to_decimal (PyVal.str ['n', 'a', 'n']) = PyFloat.nan :=
  ⟨rfl, fun _q => rfl, convert_str_num_nonneg, rfl⟩

/-- Witness for the amended C6 at the minus-free string "30". -/
theorem C6_convert_nonneg_witness :
    ('-' ∉ (['3', '0'] : List Char)) ∧
    MinutesConverter.convert_to_decimal (PyVal.str ['3', '0']) = PyFloat.num 30 ∧
    (0 : ℚ) ≤ 30 :=
  ⟨by decide, rfl, C6_convert_nonneg_amended.2.2.1 ['3', '0'] (by decide) 30 rfl⟩

end NBAClean

namespace NBAClean

/-!
Claim C9: the TextDataCleaner position standardization.
-/

/-- C9: the position standardization writes the derived column
player_position_standardized from the position column — the original
position column and every other column keep their values — where the
lookup collapses G-F and F-G to Guard-Forward, F-C and C-F to
Forward-Center, maps G, F, C to the full names, and every value outside
the lookup table passes through unchanged. -/
theorem C9_position_standardization
    (cfg : CleaningConfig) (t : Table)
    (hstd : cfg.standardize_positions = true)
    (hmem : "player_position" ∈ t.cols) :
    ((TextDataCleaner.standardizeStep cfg t).colVals "player_position_standardized" =
      t.rows.map (fun r => TextDataCleaner.standardizeVal (r.get "player_position"))) ∧
    (∀ c, c ≠ "player_position_standardized" →
      (TextDataCleaner.standardizeStep cfg t).colVals c = t.colVals c) ∧
    TextDataCleaner.standardizeVal (Val.str "G-F") = Val.str "Guard-Forward" ∧
    TextDataCleaner.standardizeVal (Val.str "F-G") = Val.str "Guard-Forward" ∧
    TextDataCleaner.standardizeVal (Val.str "F-C") = Val.str "Forward-Center" ∧
    TextDataCleaner.standardizeVal (Val.str "C-F") = Val.str "Forward-Center" ∧
    TextDataCleaner.standardizeVal (Val.str "G") = Val.str "Guard" ∧
    TextDataCleaner.standardizeVal (Val.str "F") = Val.str "Forward" ∧
    TextDataCleaner.standardizeVal (Val.str "C") = Val.str "Center" ∧
    (∀ v : Val, (∀ s : String, v = Val.str s → TextDataCleaner.position_mapping s = Option.none) →
      TextDataCleaner.standardizeVal v = v) := by
  have hstep : TextDataCleaner.standardizeStep cfg t =
      t.setCol "player_position_standardized"
        (fun r => TextDataCleaner.standardizeVal (r.get "player_position")) := by
    unfold TextDataCleaner.standardizeStep
    rw [if_pos ⟨hmem, hstd⟩]
  refine ⟨?_, ?_, rfl, rfl, rfl, rfl, rfl, rfl, rfl, ?_⟩
  · rw [hstep]
    exact Table.colVals_setCol_self t _ _
  · intro c hc
    rw [hstep]
    exact Table.colVals_setCol_ne t _ hc
  · intro v hv
    cases v with
    | str s =>
      have h := hv s rfl
      simp only [TextDataCleaner.standardizeVal, h]
    | num q => rfl
    | boolV b => rfl
    | null => rfl

/-!
Claims C1 and C8: the OutlierDetector.
-/

namespace OutlierDetector

/-- No outlier column is the flag column of an outlier column. -/
theorem outlier_flag_free :
    ∀ k ∈ outlier_columns, ∀ k' ∈ outlier_columns, k ≠ k' ++ "_outlier_flag" := by
  decide

/-- Flag-column names of distinct outlier columns are distinct. -/
theorem outlier_flag_inj :
    ∀ k ∈ outlier_columns, ∀ k' ∈ outlier_columns,
      k ++ "_outlier_flag" = k' ++ "_outlier_flag" → k = k' := by
  decide

/-- Clipping is idempotent on every cell. -/
theorem clip_idem (lo hi : Option ℚ) (v : Val) :
    Val.clip lo hi (Val.clip lo hi v) = Val.clip lo hi v := by
  cases v with
  | num a =>
    cases lo with
    | none =>
      cases hi with
      | none => rfl
      | some h =>
        simp only [Val.clip, Val.num.injEq]
        rw [min_assoc, min_self]
    | some l =>
      cases hi with
      | none =>
        simp only [Val.clip, Val.num.injEq]
        rw [max_assoc, max_self]
      | some h =>
        simp only [Val.clip, Val.num.injEq]
        simp only [min_def, max_def]
        split_ifs <;> first | rfl | linarith
  | str s => rfl
  | boolV b => rfl
  | null => rfl

/-- The flag branch of one outlier iteration. -/
theorem outlierStep_eq_flag (cfg : CleaningConfig) (T : Table)
    (e : String × Option ℚ × Option ℚ)
    (hact : cfg.outlier_action = OutlierAction.flag) (hm : e.1 ∈ T.cols) :
    outlierStep cfg T e =
      T.setCol (e.1 ++ "_outlier_flag")
        (fun r => .boolV (isOutlier (r.get e.1) e.2.1 e.2.2)) := by
  unfold outlierStep
  rw [if_pos hm, hact]

/-- The cap branch of one outlier iteration. -/
theorem outlierStep_eq_cap (cfg : CleaningConfig) (T : Table)
    (e : String × Option ℚ × Option ℚ)
    (hact : cfg.outlier_action = OutlierAction.cap) (hm : e.1 ∈ T.cols) :
    outlierStep cfg T e = T.setCol e.1 (fun r => (r.get e.1).clip e.2.1 e.2.2) := by
  unfold outlierStep
  rw [if_pos hm, hact]

/-- An iteration on an absent column is skipped. -/
theorem outlierStep_skip (cfg : CleaningConfig) (T : Table)
    (e : String × Option ℚ × Option ℚ) (hm : e.1 ∉ T.cols) :
    outlierStep cfg T e = T := by
  unfold outlierStep
  rw [if_neg hm]

/-- Outlier iterations never drop a column name. -/
theorem outlierStep_cols_mono (cfg : CleaningConfig) (T : Table)
    (e : String × Option ℚ × Option ℚ) :
    ∀ x ∈ T.cols, x ∈ (outlierStep cfg T e).cols := by
  intro x hx
  unfold outlierStep
  split
  · split
    · exact (Table.mem_setCol_cols T _ x _).2 (Or.inl hx)
    · exact (Table.mem_setCol_cols T _ x _).2 (Or.inl hx)
    · exact hx
  · exact hx

/-- The whole transform never drops a column name. -/
theorem transform_cols_mono (cfg : CleaningConfig) (b : Bounds) :
    ∀ (t : Table), ∀ x ∈ t.cols, x ∈ (transform_impl cfg b t).cols := by
  induction b with
  | nil => intro t x hx; exact hx
  | cons e rest ih =>
    intro t x hx
    exact ih (outlierStep cfg t e) x (outlierStep_cols_mono cfg t e x hx)

/-- Characterization of a flag pass over fit-shaped bounds: outlier-column
membership and all non-flag column values are untouched, and every present
fitted column ends with its flag column holding the mask of its values. -/
theorem flag_pass_char (cfg : CleaningConfig)
    (hact : cfg.outlier_action = OutlierAction.flag) :
    ∀ (b : Bounds) (t : Table),
      (∀ e ∈ b, e.1 ∈ outlier_columns) → (b.map Prod.fst).Nodup →
      ((∀ x ∈ outlier_columns, (x ∈ (transform_impl cfg b t).cols ↔ x ∈ t.cols)) ∧
       (∀ e ∈ b, e.1 ∈ t.cols →
         (e.1 ++ "_outlier_flag") ∈ (transform_impl cfg b t).cols) ∧
       (∀ c : String, (∀ e ∈ b, c ≠ e.1 ++ "_outlier_flag") →
         (transform_impl cfg b t).colVals c = t.colVals c) ∧
       (∀ e ∈ b, e.1 ∈ t.cols →
         (transform_impl cfg b t).colVals (e.1 ++ "_outlier_flag") =
           (t.colVals e.1).map (fun v => Val.boolV (isOutlier v e.2.1 e.2.2)))) := by
  intro b
  induction b with
  | nil =>
    intro t _ _
    exact ⟨fun x _ => Iff.rfl, fun e he => absurd he (List.not_mem_nil e),
      fun c _ => rfl, fun e he => absurd he (List.not_mem_nil e)⟩
  | cons e rest ih =>
    intro t hkeys hnodup
    have heOC : e.1 ∈ outlier_columns := hkeys e (by simp)
    have hkrest : ∀ e' ∈ rest, e'.1 ∈ outlier_columns := fun e' he' => hkeys e' (by simp [he'])
    simp only [List.map_cons, List.nodup_cons] at hnodup
    have htr : transform_impl cfg (e :: rest) t =
        transform_impl cfg rest (outlierStep cfg t e) := rfl
    by_cases hp : e.1 ∈ t.cols
    · have hstep := outlierStep_eq_flag cfg t e hact hp
      obtain ⟨ih1, ih2, ih3, ih4⟩ := ih (outlierStep cfg t e) hkrest hnodup.2
      refine ⟨?_, ?_, ?_, ?_⟩
      · intro x hx
        rw [htr, ih1 x hx, hstep, Table.mem_setCol_cols]
        simp [outlier_flag_free x hx e.1 heOC]
      · intro e' he' hp'
        rcases List.mem_cons.1 he' with rfl | he''
        · rw [htr]
          exact transform_cols_mono cfg rest (outlierStep cfg t e') _
            (by rw [hstep]; exact (Table.mem_setCol_cols t _ _ _).2 (Or.inr rfl))
        · exact ih2 e' he'' (outlierStep_cols_mono cfg t e _ hp')
      · intro c hc
        rw [htr, ih3 c (fun e' he' => hc e' (by simp [he'])), hstep]
        exact Table.colVals_setCol_ne t _ (hc e (by simp))
      · intro e' he' hp'
        rcases List.mem_cons.1 he' with rfl | he''
        · rw [htr, ih3 (e'.1 ++ "_outlier_flag") (fun e'' he'' heq =>
            hnodup.1 (by
              rw [outlier_flag_inj e'.1 heOC e''.1 (hkrest e'' he'') heq]
              exact List.mem_map.2 ⟨e'', he'', rfl⟩))]
          rw [hstep, Table.colVals_setCol_self]
          unfold Table.colVals
          rw [List.map_map]
          rfl
        · have hp'' : e'.1 ∈ (outlierStep cfg t e).cols :=
            outlierStep_cols_mono cfg t e _ hp'
          rw [htr, ih4 e' he'' hp'', hstep,
            Table.colVals_setCol_ne t _ (outlier_flag_free e'.1 (hkrest e' he'') e.1 heOC)]
    · have hstep := outlierStep_skip cfg t e hp
      obtain ⟨ih1, ih2, ih3, ih4⟩ := ih (outlierStep cfg t e) hkrest hnodup.2
      rw [hstep] at ih1 ih2 ih3 ih4
      refine ⟨?_, ?_, ?_, ?_⟩
      · intro x hx
        rw [htr, hstep]
        exact ih1 x hx
      · intro e' he' hp'
        rcases List.mem_cons.1 he' with rfl | he''
        · exact absurd hp' hp
        · rw [htr, hstep]
          exact ih2 e' he'' hp'
      · intro c hc
        rw [htr, hstep]
        exact ih3 c (fun e' he' => hc e' (by simp [he']))
      · intro e' he' hp'
        rcases List.mem_cons.1 he' with rfl | he''
        · exact absurd hp' hp
        · rw [htr, hstep]
          exact ih4 e' he'' hp'

/-- Characterization of a cap pass over fit-shaped bounds: the column list is
unchanged, non-fitted column values are untouched, and every present fitted
column ends clipped into its bounds. -/
theorem cap_pass_char (cfg : CleaningConfig)
    (hact : cfg.outlier_action = OutlierAction.cap) :
    ∀ (b : Bounds) (t : Table),
      (∀ e ∈ b, e.1 ∈ outlier_columns) → (b.map Prod.fst).Nodup →
      (((transform_impl cfg b t).cols = t.cols) ∧
       (∀ c : String, (∀ e ∈ b, c ≠ e.1) →
         (transform_impl cfg b t).colVals c = t.colVals c) ∧
       (∀ e ∈ b, e.1 ∈ t.cols →
         (transform_impl cfg b t).colVals e.1 =
           (t.colVals e.1).map (Val.clip e.2.1 e.2.2))) := by
  intro b
  induction b with
  | nil =>
    intro t _ _
    exact ⟨rfl, fun c _ => rfl, fun e he => absurd he (List.not_mem_nil e)⟩
  | cons e rest ih =>
    intro t hkeys hnodup
    simp only [List.map_cons, List.nodup_cons] at hnodup
    have hkrest : ∀ e' ∈ rest, e'.1 ∈ outlier_columns := fun e' he' => hkeys e' (by simp [he'])
    have htr : transform_impl cfg (e :: rest) t =
        transform_impl cfg rest (outlierStep cfg t e) := rfl
    by_cases hp : e.1 ∈ t.cols
    · have hstep := outlierStep_eq_cap cfg t e hact hp
      obtain ⟨ih1, ih2, ih3⟩ := ih (outlierStep cfg t e) hkrest hnodup.2
      have hcols1 : (outlierStep cfg t e).cols = t.cols := by
        rw [hstep]
        exact Table.setCol_cols_of_mem t _ _ hp
      refine ⟨?_, ?_, ?_⟩
      · rw [htr, ih1, hcols1]
      · intro c hc
        rw [htr, ih2 c (fun e' he' => hc e' (by simp [he'])), hstep]
        exact Table.colVals_setCol_ne t _ (hc e (by simp))
      · intro e' he' hp'
        rcases List.mem_cons.1 he' with rfl | he''
        · rw [htr, ih2 e'.1 (fun e'' he'' heq =>
            hnodup.1 (heq ▸ List.mem_map.2 ⟨e'', he'', rfl⟩))]
          rw [hstep, Table.colVals_setCol_self]
          unfold Table.colVals
          rw [List.map_map]
          rfl
        · have hp'' : e'.1 ∈ (outlierStep cfg t e).cols := by
            rw [hcols1]
            exact hp'
          rw [htr, ih3 e' he'' hp'', hstep]
          have hne : e'.1 ≠ e.1 := fun heq =>
            hnodup.1 (heq ▸ List.mem_map.2 ⟨e', he'', rfl⟩)
          rw [Table.colVals_setCol_ne t _ hne]
    · have hstep := outlierStep_skip cfg t e hp
      obtain ⟨ih1, ih2, ih3⟩ := ih (outlierStep cfg t e) hkrest hnodup.2
      rw [hstep] at ih1 ih2 ih3
      refine ⟨?_, ?_, ?_⟩
      · rw [htr, hstep]
        exact ih1
      · intro c hc
        rw [htr, hstep]
        exact ih2 c (fun e' he' => hc e' (by simp [he']))
      · intro e' he' hp'
        rcases List.mem_cons.1 he' with rfl | he''
        · exact absurd hp' hp
        · rw [htr, hstep]
          exact ih3 e' he'' hp'

end OutlierDetector

/-- C8: with the flag or cap action and fit-shaped bounds, running the outlier
transform a second time on the already-transformed table is a fixed point:
the column list is unchanged and every column's values — capped columns,
recomputed flag columns, and all others — are identical after the second
run. -/
theorem C8_outlier_transform_idempotent
    (cfg : CleaningConfig) (b : OutlierDetector.Bounds) (t : Table)
    (hact : cfg.outlier_action = OutlierAction.flag ∨
      cfg.outlier_action = OutlierAction.cap)
    (hkeys : ∀ e ∈ b, e.1 ∈ outlier_columns)
    (hnodup : (b.map Prod.fst).Nodup) :
    (OutlierDetector.transform_impl cfg b
        (OutlierDetector.transform_impl cfg b t)).cols =
      (OutlierDetector.transform_impl cfg b t).cols ∧
    ∀ c : String,
      (OutlierDetector.transform_impl cfg b
          (OutlierDetector.transform_impl cfg b t)).colVals c =
        (OutlierDetector.transform_impl cfg b t).colVals c := by
  set t1 := OutlierDetector.transform_impl cfg b t with ht1
  rcases hact with hact | hact
  · obtain ⟨ch1, ch2, ch3, ch4⟩ := OutlierDetector.flag_pass_char cfg hact b t hkeys hnodup
    have hstep : ∀ T e, e ∈ b →
        (T.cols = t1.cols ∧ ∀ c, T.colVals c = t1.colVals c) →
        ((OutlierDetector.outlierStep cfg T e).cols = t1.cols ∧
         ∀ c, (OutlierDetector.outlierStep cfg T e).colVals c = t1.colVals c) := by
      intro T e he hI
      obtain ⟨hIc, hIv⟩ := hI
      have heOC := hkeys e he
      by_cases hp : e.1 ∈ t.cols
      · have hm1 : e.1 ∈ T.cols := by
          rw [hIc]
          exact (ch1 e.1 heOC).2 hp
        have hfk1 : (e.1 ++ "_outlier_flag") ∈ T.cols := by
          rw [hIc]
          exact ch2 e he hp
        rw [OutlierDetector.outlierStep_eq_flag cfg T e hact hm1]
        refine ⟨by rw [Table.setCol_cols_of_mem T _ _ hfk1]; exact hIc, ?_⟩
        intro c
        by_cases hc : c = e.1 ++ "_outlier_flag"
        · rw [hc, Table.colVals_setCol_self]
          have hmm : T.rows.map
              (fun r => Val.boolV (OutlierDetector.isOutlier (r.get e.1) e.2.1 e.2.2)) =
              (T.colVals e.1).map
                (fun v => Val.boolV (OutlierDetector.isOutlier v e.2.1 e.2.2)) := by
            unfold Table.colVals
            rw [List.map_map]
            rfl
          rw [hmm, hIv e.1,
            ch3 e.1 (fun e' he' =>
              OutlierDetector.outlier_flag_free e.1 heOC e'.1 (hkeys e' he'))]
          exact (ch4 e he hp).symm
        · rw [Table.colVals_setCol_ne T _ hc]
          exact hIv c
      · have hm1 : e.1 ∉ T.cols := by
          rw [hIc]
          intro hmem
          exact hp ((ch1 e.1 heOC).1 hmem)
        rw [OutlierDetector.outlierStep_skip cfg T e hm1]
        exact ⟨hIc, hIv⟩
    exact foldl_preserve
      (fun T => T.cols = t1.cols ∧ ∀ c, T.colVals c = t1.colVals c)
      (OutlierDetector.outlierStep cfg) b t1 ⟨rfl, fun _ => rfl⟩
      (fun T e he hI => hstep T e he hI)
  · obtain ⟨ch1, ch2, ch3⟩ := OutlierDetector.cap_pass_char cfg hact b t hkeys hnodup
    have hstep : ∀ T e, e ∈ b →
        (T.cols = t1.cols ∧ ∀ c, T.colVals c = t1.colVals c) →
        ((OutlierDetector.outlierStep cfg T e).cols = t1.cols ∧
         ∀ c, (OutlierDetector.outlierStep cfg T e).colVals c = t1.colVals c) := by
      intro T e he hI
      obtain ⟨hIc, hIv⟩ := hI
      by_cases hp : e.1 ∈ t.cols
      · have hm1 : e.1 ∈ T.cols := by
          rw [hIc, ht1, ch1]
          exact hp
        rw [OutlierDetector.outlierStep_eq_cap cfg T e hact hm1]
        refine ⟨by rw [Table.setCol_cols_of_mem T _ _ hm1]; exact hIc, ?_⟩
        intro c
        by_cases hc : c = e.1
        · rw [hc, Table.colVals_setCol_self]
          have hmm : T.rows.map (fun r => (r.get e.1).clip e.2.1 e.2.2) =
              (T.colVals e.1).map (Val.clip e.2.1 e.2.2) := by
            unfold Table.colVals
            rw [List.map_map]
            rfl
          rw [hmm, hIv e.1, ch3 e he hp, List.map_map,
            show (Val.clip e.2.1 e.2.2 ∘ Val.clip e.2.1 e.2.2) = Val.clip e.2.1 e.2.2 from
              funext (fun v => OutlierDetector.clip_idem _ _ v)]
        · rw [Table.colVals_setCol_ne T _ hc]
          exact hIv c
      · have hm1 : e.1 ∉ T.cols := by
          rw [hIc, ht1, ch1]
          exact hp
        rw [OutlierDetector.outlierStep_skip cfg T e hm1]
        exact ⟨hIc, hIv⟩
    exact foldl_preserve
      (fun T => T.cols = t1.cols ∧ ∀ c, T.colVals c = t1.colVals c)
      (OutlierDetector.outlierStep cfg) b t1 ⟨rfl, fun _ => rfl⟩
      (fun T e he hI => hstep T e he hI)

/-- Witness for C8: a fitted single bound on pts with the default flag action,
on a one-row table. -/
theorem C8_outlier_transform_idempotent_witness :
    (defaultConfig.outlier_action = OutlierAction.flag ∨
      defaultConfig.outlier_action = OutlierAction.cap) ∧
    (∀ e ∈ ([("pts", (some (0 : ℚ), some (50 : ℚ)))] : OutlierDetector.Bounds),
      e.1 ∈ outlier_columns) ∧
    ((OutlierDetector.transform_impl defaultConfig [("pts", (some 0, some 50))]
        (OutlierDetector.transform_impl defaultConfig [("pts", (some 0, some 50))]
          ⟨["pts"], [[("pts", Val.num 60)]]⟩)).cols =
      (OutlierDetector.transform_impl defaultConfig [("pts", (some 0, some 50))]
        ⟨["pts"], [[("pts", Val.num 60)]]⟩).cols ∧
     ∀ c : String,
      (OutlierDetector.transform_impl defaultConfig [("pts", (some 0, some 50))]
          (OutlierDetector.transform_impl defaultConfig [("pts", (some 0, some 50))]
            ⟨["pts"], [[("pts", Val.num 60)]]⟩)).colVals c =
        (OutlierDetector.transform_impl defaultConfig [("pts", (some 0, some 50))]
          ⟨["pts"], [[("pts", Val.num 60)]]⟩).colVals c) :=
  ⟨Or.inl rfl, by decide,
    C8_outlier_transform_idempotent defaultConfig [("pts", (some 0, some 50))]
      ⟨["pts"], [[("pts", Val.num 60)]]⟩ (Or.inl rfl) (by decide) (by decide)⟩

/-- C1: the outlier stage is stateful across fit and transform.  transform
returns its stored bounds unchanged, so repeated transform calls keep using
them until the next fit; and on the regression data, fitting a fresh
detector on A = pts {1,2,3,100} stores exactly A's IQR bounds
(-299/4, 415/4), a transform of B = pts {1,2,3,200} flags using those
bounds from A (flagging 200), while the bounds recomputed from B
(-599/4, 815/4) would flag nothing — so transform does not recompute from
B. -/
theorem C1_outlier_statefulness :
    (∀ (cfg : CleaningConfig) (b : OutlierDetector.Bounds) (B : Table),
      (OutlierDetector.transformS cfg b B).1 = b) ∧
    (∀ (cfg : CleaningConfig) (b : OutlierDetector.Bounds) (B B' : Table),
      (OutlierDetector.transformS cfg (OutlierDetector.transformS cfg b B).1 B').1 = b) ∧
    OutlierDetector.fit defaultConfig []
        ⟨["pts"], [[("pts", Val.num 1)], [("pts", Val.num 2)],
          [("pts", Val.num 3)], [("pts", Val.num 100)]]⟩ =
      [("pts", (some (-299/4 : ℚ), some (415/4 : ℚ)))] ∧
    OutlierDetector.fit defaultConfig []
        ⟨["pts"], [[("pts", Val.num 1)], [("pts", Val.num 2)],
          [("pts", Val.num 3)], [("pts", Val.num 200)]]⟩ =
      [("pts", (some (-599/4 : ℚ), some (815/4 : ℚ)))] ∧
    (OutlierDetector.transformS defaultConfig
        [("pts", (some (-299/4 : ℚ), some (415/4 : ℚ)))]
        ⟨["pts"], [[("pts", Val.num 1)], [("pts", Val.num 2)],
          [("pts", Val.num 3)], [("pts", Val.num 200)]]⟩).2.colVals "pts_outlier_flag" =
      [Val.boolV false, Val.boolV false, Val.boolV false, Val.boolV true] ∧
    (OutlierDetector.transformS defaultConfig
        [("pts", (some (-599/4 : ℚ), some (815/4 : ℚ)))]
        ⟨["pts"], [[("pts", Val.num 1)], [("pts", Val.num 2)],
          [("pts", Val.num 3)], [("pts", Val.num 200)]]⟩).2.colVals "pts_outlier_flag" =
      [Val.boolV false, Val.boolV false, Val.boolV false, Val.boolV false] := by
  have hsortA : OutlierDetector.sortQ [1, 2, 3, 100] = [1, 2, 3, 100] := by
    norm_num [OutlierDetector.sortQ, OutlierDetector.insertSorted]
  have hsortB : OutlierDetector.sortQ [1, 2, 3, 200] = [1, 2, 3, 200] := by
    norm_num [OutlierDetector.sortQ, OutlierDetector.insertSorted]
  have hfl1 : (⌊(1/4 : ℚ) * (((4 : ℕ) : ℚ) - 1)⌋) = 0 := by
    rw [show (1/4 : ℚ) * (((4 : ℕ) : ℚ) - 1) = 3/4 by push_cast; norm_num]
    rw [Int.floor_eq_iff]
    norm_num
  have hfl3 : (⌊(3/4 : ℚ) * (((4 : ℕ) : ℚ) - 1)⌋) = 2 := by
    rw [show (3/4 : ℚ) * (((4 : ℕ) : ℚ) - 1) = 9/4 by push_cast; norm_num]
    rw [Int.floor_eq_iff]
    norm_num
  have hq1A : OutlierDetector.quantile [1, 2, 3, 100] (1/4) = some (7/4) := by
    unfold OutlierDetector.quantile
    rw [hsortA]
    dsimp only
    simp only [List.length_cons, List.length_nil]
    rw [hfl1]
    simp only [Int.toNat_zero, List.getD_cons_zero, List.getD_cons_succ]
    push_cast
    norm_num
  have hq3A : OutlierDetector.quantile [1, 2, 3, 100] (3/4) = some (109/4) := by
    unfold OutlierDetector.quantile
    rw [hsortA]
    dsimp only
    simp only [List.length_cons, List.length_nil]
    rw [hfl3]
    simp only [Int.toNat_ofNat, List.getD_cons_zero, List.getD_cons_succ]
    push_cast
    norm_num
  have hq1B : OutlierDetector.quantile [1, 2, 3, 200] (1/4) = some (7/4) := by
    unfold OutlierDetector.quantile
    rw [hsortB]
    dsimp only
    simp only [List.length_cons, List.length_nil]
    rw [hfl1]
    simp only [Int.toNat_zero, List.getD_cons_zero, List.getD_cons_succ]
    push_cast
    norm_num
  have hq3B : OutlierDetector.quantile [1, 2, 3, 200] (3/4) = some (209/4) := by
    unfold OutlierDetector.quantile
    rw [hsortB]
    dsimp only
    simp only [List.length_cons, List.length_nil]
    rw [hfl3]
    simp only [Int.toNat_ofNat, List.getD_cons_zero, List.getD_cons_succ]
    push_cast
    norm_num
  have hcalcA : OutlierDetector.calculate_outlier_bounds defaultConfig [1, 2, 3, 100] =
      (some (-299/4 : ℚ), some (415/4 : ℚ)) := by
    unfold OutlierDetector.calculate_outlier_bounds
    dsimp only [defaultConfig]
    rw [hq1A, hq3A]
    dsimp only
    norm_num [Prod.ext_iff]
  have hcalcB : OutlierDetector.calculate_outlier_bounds defaultConfig [1, 2, 3, 200] =
      (some (-599/4 : ℚ), some (815/4 : ℚ)) := by
    unfold OutlierDetector.calculate_outlier_bounds
    dsimp only [defaultConfig]
    rw [hq1B, hq3B]
    dsimp only
    norm_num [Prod.ext_iff]
  have hfitA0 : OutlierDetector.fit defaultConfig []
      ⟨["pts"], [[("pts", Val.num 1)], [("pts", Val.num 2)],
        [("pts", Val.num 3)], [("pts", Val.num 100)]]⟩ =
      [("pts", OutlierDetector.calculate_outlier_bounds defaultConfig [1, 2, 3, 100])] := rfl
  have hfitB0 : OutlierDetector.fit defaultConfig []
      ⟨["pts"], [[("pts", Val.num 1)], [("pts", Val.num 2)],
        [("pts", Val.num 3)], [("pts", Val.num 200)]]⟩ =
      [("pts", OutlierDetector.calculate_outlier_bounds defaultConfig [1, 2, 3, 200])] := rfl
  have hget : ∀ q : ℚ, Row.get [("pts", Val.num q)] "pts" = Val.num q := fun q => rfl
  have hoFF : ∀ (a lb ub : ℚ), ¬(a < lb) → ¬(ub < a) →
      OutlierDetector.isOutlier (Val.num a) (some lb) (some ub) = false := by
    intro a lb ub h1 h2
    simp [OutlierDetector.isOutlier, Val.ltQ, Val.gtQ, h1, h2]
  have hoTT : ∀ (a lb ub : ℚ), ub < a →
      OutlierDetector.isOutlier (Val.num a) (some lb) (some ub) = true := by
    intro a lb ub h2
    simp [OutlierDetector.isOutlier, Val.ltQ, Val.gtQ, h2]
  have he : (OutlierDetector.transformS defaultConfig
      [("pts", (some (-299/4 : ℚ), some (415/4 : ℚ)))]
      ⟨["pts"], [[("pts", Val.num 1)], [("pts", Val.num 2)],
        [("pts", Val.num 3)], [("pts", Val.num 200)]]⟩).2.colVals "pts_outlier_flag" =
      [Val.boolV false, Val.boolV false, Val.boolV false, Val.boolV true] := by
    rw [show (OutlierDetector.transformS defaultConfig
        [("pts", (some (-299/4 : ℚ), some (415/4 : ℚ)))]
        ⟨["pts"], [[("pts", Val.num 1)], [("pts", Val.num 2)],
          [("pts", Val.num 3)], [("pts", Val.num 200)]]⟩).2 =
      OutlierDetector.outlierStep defaultConfig
        ⟨["pts"], [[("pts", Val.num 1)], [("pts", Val.num 2)],
          [("pts", Val.num 3)], [("pts", Val.num 200)]]⟩
        ("pts", (some (-299/4 : ℚ), some (415/4 : ℚ))) from rfl]
    rw [OutlierDetector.outlierStep_eq_flag defaultConfig _ _ rfl (by decide)]
    dsimp only
    rw [show ("pts" ++ "_outlier_flag" : String) = "pts_outlier_flag" by decide]
    rw [Table.colVals_setCol_self]
    simp only [List.map_cons, List.map_nil, hget]
    rw [hoFF 1 (-299/4) (415/4) (by norm_num) (by norm_num),
        hoFF 2 (-299/4) (415/4) (by norm_num) (by norm_num),
        hoFF 3 (-299/4) (415/4) (by norm_num) (by norm_num),
        hoTT 200 (-299/4) (415/4) (by norm_num)]
  have hf : (OutlierDetector.transformS defaultConfig
      [("pts", (some (-599/4 : ℚ), some (815/4 : ℚ)))]
      ⟨["pts"], [[("pts", Val.num 1)], [("pts", Val.num 2)],
        [("pts", Val.num 3)], [("pts", Val.num 200)]]⟩).2.colVals "pts_outlier_flag" =
      [Val.boolV false, Val.boolV false, Val.boolV false, Val.boolV false] := by
    rw [show (OutlierDetector.transformS defaultConfig
        [("pts", (some (-599/4 : ℚ), some (815/4 : ℚ)))]
        ⟨["pts"], [[("pts", Val.num 1)], [("pts", Val.num 2)],
          [("pts", Val.num 3)], [("pts", Val.num 200)]]⟩).2 =
      OutlierDetector.outlierStep defaultConfig
        ⟨["pts"], [[("pts", Val.num 1)], [("pts", Val.num 2)],
          [("pts", Val.num 3)], [("pts", Val.num 200)]]⟩
        ("pts", (some (-599/4 : ℚ), some (815/4 : ℚ))) from rfl]
    rw [OutlierDetector.outlierStep_eq_flag defaultConfig _ _ rfl (by decide)]
    dsimp only
    rw [show ("pts" ++ "_outlier_flag" : String) = "pts_outlier_flag" by decide]
    rw [Table.colVals_setCol_self]
    simp only [List.map_cons, List.map_nil, hget]
    rw [hoFF 1 (-599/4) (815/4) (by norm_num) (by norm_num),
        hoFF 2 (-599/4) (815/4) (by norm_num) (by norm_num),
        hoFF 3 (-599/4) (815/4) (by norm_num) (by norm_num),
        hoFF 200 (-599/4) (815/4) (by norm_num) (by norm_num)]
  exact ⟨fun cfg b B => rfl, fun cfg b B B' => rfl,
    by rw [hfitA0, hcalcA], by rw [hfitB0, hcalcB], he, hf⟩

/-- Witness for C9 at a one-row table whose position is F-G. -/
theorem C9_position_standardization_witness :
    defaultConfig.standardize_positions = true ∧
    "player_position" ∈
      (⟨["player_position"], [[("player_position", Val.str "F-G")]]⟩ : Table).cols ∧
    (TextDataCleaner.standardizeStep defaultConfig
        ⟨["player_position"], [[("player_position", Val.str "F-G")]]⟩).colVals
        "player_position_standardized" =
      (⟨["player_position"], [[("player_position", Val.str "F-G")]]⟩ : Table).rows.map
        (fun r => TextDataCleaner.standardizeVal (r.get "player_position")) ∧
    (TextDataCleaner.standardizeStep defaultConfig
        ⟨["player_position"], [[("player_position", Val.str "F-G")]]⟩).colVals
        "player_position" =
      (⟨["player_position"], [[("player_position", Val.str "F-G")]]⟩ : Table).colVals
        "player_position" :=
  ⟨rfl, by decide,
    (C9_position_standardization defaultConfig _ rfl (by decide)).1,
    (C9_position_standardization defaultConfig _ rfl (by decide)).2.1
      "player_position" (by decide)⟩

/-- Witness for C3: a concrete two-stage pipeline whose first stage raises. -/
theorem C3_failing_stage_skipped_witness :
    pipelineRun [fun _ => Except.error CleanError.notFitted, fun t => Except.ok t]
        ⟨["pts"], []⟩ =
      pipelineRun [fun t => Except.ok t] (pipelineRun [] ⟨["pts"], []⟩) ∧
    cleanerTransform true [fun _ => Except.error CleanError.notFitted, fun t => Except.ok t]
        ⟨["pts"], []⟩ =
      Except.ok (pipelineRun [fun t => Except.ok t] (pipelineRun [] ⟨["pts"], []⟩)) :=
  C3_failing_stage_skipped [] [fun t => Except.ok t]
    (fun _ => Except.error CleanError.notFitted) ⟨["pts"], []⟩ CleanError.notFitted rfl

end NBAClean
